import Mathlib

/-!
Verification of the request-capture-and-replay engine of `src/injected.js`.

The development shallowly embeds the engine into Lean:

* JSON-like runtime values are the inductive `JsonVal`; the JavaScript value
  `undefined` is represented by `Option JsonVal` (with `none` = `undefined`)
  at the places where the source can produce it.
* Exceptions are represented by `Except JsError`; a function returning a plain
  value cannot throw.
* The platform primitives used by the source (`JSON.parse`, `JSON.stringify`
  with 2-space indent, `String.prototype.includes`, `parseInt`, the `URL`
  query-parameter API) are modelled as executable Lean functions over the
  same data.  JSON numbers are modelled as integers and JSON texts over the
  core grammar (strings with the standard escapes, integral numerals,
  whitespace); this core is enough for every property below.
-/

namespace ReqCapReplay

/-- JSON-like runtime value: the data that flows through the engine
(request bodies after `JSON.parse`, response bodies, config objects). -/
inductive JsonVal where
  | jnull : JsonVal
  | jbool : Bool → JsonVal
  | jnum : Int → JsonVal
  | jstr : String → JsonVal
  | jarr : List JsonVal → JsonVal
  | jobj : List (String × JsonVal) → JsonVal

/-- The kinds of runtime failure the embedding distinguishes:
`typeError` for a thrown TypeError (for example using the `in` operator on a
primitive, or calling `.includes` on a non-string), `noCapture` for the
explicit throw in `executeRequest`, and `requestFailed` for a network or
response-JSON failure during a replay. -/
inductive JsError where
  | typeError : JsError
  | noCapture : JsError
  | requestFailed : JsError
deriving DecidableEq

/-- JavaScript truthiness of a `JsonVal` (`undefined` is handled by `Option`
at use sites): `null`, `false`, `0` and `""` are falsy, every other JSON
value (including any array or object) is truthy. -/
def truthy : JsonVal → Bool
  | .jnull => false
  | .jbool b => b
  | .jnum n => n ≠ 0
  | .jstr s => s ≠ ""
  | .jarr _ => true
  | .jobj _ => true

/-! Character-level helpers shared by the models of the platform string
primitives. -/

/-- Decimal digit test. -/
def isDigit (c : Char) : Bool := '0' ≤ c && c ≤ '9'

/-- Numeric value of a decimal digit character. -/
def digitVal (c : Char) : Nat := c.toNat - 48

/-- Accumulating decimal reading of a digit list (most significant first). -/
def digitsToNat (acc : Nat) (l : List Char) : Nat :=
  l.foldl (fun a c => a * 10 + digitVal c) acc

/-- Decimal digit characters of a natural number, most significant first;
the fuel (any bound above the digit count) keeps the recursion structural. -/
def natCharsAux : Nat → Nat → List Char
  | 0, _ => []
  | fuel + 1, n =>
    if n < 10 then [Nat.digitChar n]
    else natCharsAux fuel (n / 10) ++ [Nat.digitChar (n % 10)]

/-- Decimal digit characters of a natural number, most significant first. -/
def natChars (n : Nat) : List Char := natCharsAux (n + 1) n

/-- Decimal character rendering of an integer (the way a JavaScript number
holding an integral value is stringified). -/
def intChars (n : Int) : List Char :=
  if n < 0 then '-' :: natChars n.natAbs else natChars n.toNat

/-- String rendering of an integer. -/
def intStr (n : Int) : String := String.mk (intChars n)

/-- Model of `String.prototype.startsWith` at the character-list level. -/
def isPrefixOfChars : List Char → List Char → Bool
  | [], _ => true
  | _ :: _, [] => false
  | c :: cs, d :: ds => c = d && isPrefixOfChars cs ds

/-- Substring containment at the character-list level. -/
def isInfixOfChars (needle : List Char) : List Char → Bool
  | [] => needle.isEmpty
  | c :: hs => isPrefixOfChars needle (c :: hs) || isInfixOfChars needle hs

/-- Model of `s.includes(sub)`: case-sensitive substring containment; every
string contains the empty string. -/
def jsIncludes (s sub : String) : Bool := isInfixOfChars sub.data s.data

/-- Splitting a character list on the dot separator, the way
`path.split(".")` does: the empty list yields one empty segment, and
adjacent dots yield empty segments. -/
def splitDotChars : List Char → List (List Char)
  | [] => [[]]
  | c :: r =>
    match splitDotChars r with
    | [] => if c = '.' then [[], []] else [[c]]
    | s :: ss => if c = '.' then [] :: s :: ss else (c :: s) :: ss

/-- Model of `path.split(".")`. -/
def splitDot (path : String) : List String :=
  (splitDotChars path.data).map String.mk

/-! The Path Extractor (`getValueByPath` in the source).

The source walks the object with
`if (value && p in value) value = value[p]; else return undefined;`.
The loop touches its values through exactly three operations: truthiness,
the `in` test (a Bool on objects and arrays, a thrown TypeError on
primitives), and the property read.  On objects and arrays the `in` test
consults the whole prototype chain, so segments such as `toString`,
`constructor`, or `push` are found even on JSON data and the read then
yields a host value (a built-in method or prototype object).  Which
inherited names exist, and what reading them yields, depends on the host
and its ECMAScript level, so the model keeps the loop concrete and takes
the host side as a parameter (`HostSpec`): every theorem below holds for
every choice of the host tables, in particular for the tables of the
engine actually running the source. -/

/-- Container test: the values on which the JavaScript `in` operator does
not throw (objects and arrays). -/
def isContainer : JsonVal → Bool
  | .jarr _ => true
  | .jobj _ => true
  | _ => false

/-- First binding of a key in an association list.  Objects produced by
`JSON.parse` have distinct keys (the parse keeps one binding per name), so
the model assumes distinct keys and takes the first binding. -/
def lookupKey (fs : List (String × JsonVal)) (k : String) : Option JsonVal :=
  (fs.find? (fun f => f.1 = k)).map (fun f => f.2)

/-- Canonical array-index reading of a path segment: the strings that are
own element keys of an array (no leading zeros, except the single digit 0
itself). -/
def strToIndex (p : String) : Option Nat :=
  match p.data with
  | [] => none
  | [c] => if isDigit c then some (digitVal c) else none
  | c :: r =>
    if c = '0' then none
    else if (c :: r).all isDigit then some (digitsToNat 0 (c :: r)) else none

/-- Own-property test (the `hasOwnProperty` sense, one disjunct of the
`in` operator): key membership for objects; element indices and `length`
for arrays.  Inherited prototype properties are the other disjunct and
live in the `HostSpec` parameter. -/
def hasOwnKey (v : JsonVal) (p : String) : Bool :=
  match v with
  | .jobj fs => (lookupKey fs p).isSome
  | .jarr xs =>
    p = "length" ||
      (match strToIndex p with
       | some i => decide (i < xs.length)
       | none => false)
  | _ => false

/-- Own-property read, used when `hasOwnKey` holds (an own property
shadows any inherited one of the same name). -/
def jsGetProp (v : JsonVal) (p : String) : JsonVal :=
  match v with
  | .jobj fs => (lookupKey fs p).getD .jnull
  | .jarr xs =>
    if p = "length" then .jnum xs.length
    else
      match strToIndex p with
      | some i => xs.getD i .jnull
      | none => .jnull
  | _ => .jnull

/-- A value domain as the extractor loop observes it: truthiness, the
`p in value` test (which may throw), and the `value[p]` read (which may
throw, a property can be a throwing accessor).  The heap of the JavaScript
engine running the source is one instance; `jsDomain` below is the
instance the other components use. -/
structure JsDomain (V : Type) where
  truthyV : V → Bool
  memV : V → String → Except JsError Bool
  getV : V → String → Except JsError V

/-- The loop of `getValueByPath`, verbatim over an arbitrary value domain:
`if (value && p in value) value = value[p]; else return undefined`, with a
throw from either primitive propagating out. -/
def walkPathD (D : JsDomain V) : List String → V → Except JsError (Option V)
  | [], v => .ok (some v)
  | p :: ps, v =>
    if D.truthyV v then
      match D.memV v p with
      | .error e => .error e
      | .ok true =>
        match D.getV v p with
        | .error e => .error e
        | .ok v2 => walkPathD D ps v2
      | .ok false => .ok none
    else .ok none

/-- The host side of the value domain, a parameter of the model because
the inherited property tables depend on the engine and its ECMAScript
level.  `V` are the host values reachable from JSON data through inherited
reads (built-in methods, prototype objects); `objProto` and `arrProto`
give, for a property name, `none` when the prototype chain of a plain
object (respectively an array) lacks it, and otherwise the result of
reading it: a JSON data value or a host value, or a thrown error for a
throwing accessor.  Membership for the `in` test is `Option.isSome` of the
table, since `in` does not run accessors. -/
structure HostSpec where
  V : Type
  truthyH : V → Bool
  memH : V → String → Except JsError Bool
  getH : V → String → Except JsError (JsonVal ⊕ V)
  objProto : String → Option (Except JsError (JsonVal ⊕ V))
  arrProto : String → Option (Except JsError (JsonVal ⊕ V))

/-- The `in` test on a JSON data value: on a container, an own property or
an inherited prototype property; on a primitive, a thrown TypeError. -/
def dataMem (H : HostSpec) (j : JsonVal) (p : String) : Except JsError Bool :=
  if isContainer j then
    .ok (hasOwnKey j p ||
      (match j with
       | .jarr _ => (H.arrProto p).isSome
       | _ => (H.objProto p).isSome))
  else .error .typeError

/-- The property read on a JSON data value: an own property (which shadows
any inherited one) or the inherited read from the host tables.  The
fallback branch is unreachable from the walk, which reads only after a
successful `in` test. -/
def dataGet (H : HostSpec) (j : JsonVal) (p : String) : Except JsError (JsonVal ⊕ H.V) :=
  if hasOwnKey j p then .ok (Sum.inl (jsGetProp j p))
  else
    match j with
    | .jarr _ => (H.arrProto p).getD (.error .typeError)
    | _ => (H.objProto p).getD (.error .typeError)

/-- The value domain of the source extractor for a given host: JSON data
on the left, host values on the right. -/
def jsDomain (H : HostSpec) : JsDomain (JsonVal ⊕ H.V) where
  truthyV v :=
    match v with
    | .inl j => truthy j
    | .inr h => H.truthyH h
  memV v p :=
    match v with
    | .inl j => dataMem H j p
    | .inr h => H.memH h p
  getV v p :=
    match v with
    | .inl j => dataGet H j p
    | .inr h => H.getH h p

/-- Model of `getValueByPath(obj, path)` from the source: split the path
on dots and run the walk on the JSON data value `obj`, in the host given
by `H`.  The result is the reached value (JSON data or a host value),
`undefined` (`.ok none`), or a thrown error. -/
def getValueByPath (H : HostSpec) (obj : JsonVal) (path : String) :
    Except JsError (Option (JsonVal ⊕ H.V)) :=
  walkPathD (jsDomain H) (splitDot path) (Sum.inl obj)

/-- Specification-side predicate: the walk descends from `v` through every
segment (the value truthy, the `in` test succeeding, the read succeeding)
and reaches `w`. -/
def ResolvesD (D : JsDomain V) : List String → V → V → Prop
  | [], v, w => w = v
  | p :: ps, v, w =>
    D.truthyV v = true ∧ D.memV v p = .ok true ∧
      ∃ v2, D.getV v p = .ok v2 ∧ ResolvesD D ps v2 w

/-- Specification-side predicate: after a resolving prefix the walk meets
a truthy value on which the `in` test or the property read throws. -/
def ThrowsD (D : JsDomain V) : List String → V → Prop
  | [], _ => False
  | p :: ps, v =>
    D.truthyV v = true ∧
      ((∃ e, D.memV v p = .error e) ∨
        (D.memV v p = .ok true ∧
          ((∃ e, D.getV v p = .error e) ∨
            ∃ v2, D.getV v p = .ok v2 ∧ ThrowsD D ps v2)))

/-! Model of the platform JSON primitives used by the source:
`JSON.parse` as a whitespace-tolerant recursive-descent reader over the
core grammar, and `JSON.stringify(value, null, 2)` as the 2-space-indented
pretty printer.  Fuel makes the reader structurally recursive; the fuel
chosen in `parseJson` is proved sufficient below. -/

/-- JSON whitespace. -/
def isWs (c : Char) : Bool := c = ' ' || c = '\n' || c = '\t' || c = '\r'

/-- Dropping leading JSON whitespace. -/
def skipWs : List Char → List Char
  | [] => []
  | c :: r => if isWs c then skipWs r else c :: r

/-- Consuming an exact literal character sequence. -/
def expectChars : List Char → List Char → Option (List Char)
  | [], l => some l
  | _ :: _, [] => none
  | c :: cs, d :: l => if c = d then expectChars cs l else none

/-- Splitting off the leading run of decimal digits. -/
def spanDigits : List Char → List Char × List Char
  | [] => ([], [])
  | c :: r =>
    if isDigit c then
      match spanDigits r with
      | (ds, rest) => (c :: ds, rest)
    else ([], c :: r)

/-- Reading a nonempty run of decimal digits as a natural number. -/
def parseNat (l : List Char) : Option (Nat × List Char) :=
  match spanDigits l with
  | ([], _) => none
  | (ds, r) => some (digitsToNat 0 ds, r)

/-- Reading a JSON integral numeral (optional minus sign, then digits). -/
def parseNumber (l : List Char) : Option (Int × List Char) :=
  if l.head? = some '-' then
    (parseNat l.tail).map (fun p => (-(p.1 : Int), p.2))
  else
    (parseNat l).map (fun p => ((p.1 : Int), p.2))

/-- Value of one hexadecimal digit character. -/
def parseHexDigit (c : Char) : Option Nat :=
  if '0' ≤ c ∧ c ≤ '9' then some (c.toNat - 48)
  else if 'a' ≤ c ∧ c ≤ 'f' then some (c.toNat - 87)
  else if 'A' ≤ c ∧ c ≤ 'F' then some (c.toNat - 55)
  else none

/-- The single-character JSON string escapes. -/
def unescape (e : Char) : Option Char :=
  if e = '"' then some '"'
  else if e = '\\' then some '\\'
  else if e = '/' then some '/'
  else if e = 'n' then some '\n'
  else if e = 't' then some '\t'
  else if e = 'r' then some '\r'
  else if e = 'b' then some (Char.ofNat 8)
  else if e = 'f' then some (Char.ofNat 12)
  else none

/-- Reading the body of a JSON string after the opening quote, up to and
including the closing quote; handles the named escapes and `\uXXXX`, and
rejects raw control characters. -/
def parseStringBody : List Char → Option (List Char × List Char)
  | [] => none
  | c :: r =>
    if c = '"' then some ([], r)
    else if c = '\\' then
      match r with
      | [] => none
      | e :: r2 =>
        if e = 'u' then
          match r2 with
          | a :: b :: c2 :: d :: r3 =>
            match parseHexDigit a, parseHexDigit b, parseHexDigit c2, parseHexDigit d with
            | some ha, some hb, some hc, some hd =>
              let n := ((ha * 16 + hb) * 16 + hc) * 16 + hd
              if Nat.isValidChar n then
                match parseStringBody r3 with
                | some (out, rest) => some (Char.ofNat n :: out, rest)
                | none => none
              else none
            | _, _, _, _ => none
          | _ => none
        else
          match unescape e with
          | some ec =>
            match parseStringBody r2 with
            | some (out, rest) => some (ec :: out, rest)
            | none => none
          | none => none
    else if c.toNat < 32 then none
    else
      match parseStringBody r with
      | some (out, rest) => some (c :: out, rest)
      | none => none

mutual

/-- Fuel-indexed JSON value reader.  Returns the value and the unconsumed
remainder of the input. -/
def parseVal : Nat → List Char → Option (JsonVal × List Char)
  | 0, _ => none
  | fuel + 1, input =>
    match skipWs input with
    | [] => none
    | c :: r =>
      if c = 'n' then (expectChars ['u', 'l', 'l'] r).map (fun r2 => (.jnull, r2))
      else if c = 't' then (expectChars ['r', 'u', 'e'] r).map (fun r2 => (.jbool true, r2))
      else if c = 'f' then (expectChars ['a', 'l', 's', 'e'] r).map (fun r2 => (.jbool false, r2))
      else if c = '"' then (parseStringBody r).map (fun p => (.jstr (String.mk p.1), p.2))
      else if c = '[' then
        if (skipWs r).head? = some ']' then some (.jarr [], (skipWs r).tail)
        else (parseElems fuel r).map (fun p => (.jarr p.1, p.2))
      else if c = '{' then
        if (skipWs r).head? = some '}' then some (.jobj [], (skipWs r).tail)
        else (parseMembers fuel r).map (fun p => (.jobj p.1, p.2))
      else (parseNumber (c :: r)).map (fun p => (.jnum p.1, p.2))

/-- Fuel-indexed reader of a nonempty comma-separated element list, up to
and including the closing bracket. -/
def parseElems : Nat → List Char → Option (List JsonVal × List Char)
  | 0, _ => none
  | fuel + 1, l =>
    match parseVal fuel l with
    | none => none
    | some (v, r) =>
      if (skipWs r).head? = some ',' then
        match parseElems fuel (skipWs r).tail with
        | none => none
        | some (vs, r3) => some (v :: vs, r3)
      else if (skipWs r).head? = some ']' then some ([v], (skipWs r).tail)
      else none

/-- Fuel-indexed reader of a nonempty comma-separated member list, up to
and including the closing brace. -/
def parseMembers : Nat → List Char → Option (List (String × JsonVal) × List Char)
  | 0, _ => none
  | fuel + 1, l =>
    match skipWs l with
    | [] => none
    | c :: r =>
      if c = '"' then
        match parseStringBody r with
        | none => none
        | some (k, r2) =>
          if (skipWs r2).head? = some ':' then
            match parseVal fuel (skipWs r2).tail with
            | none => none
            | some (v, r4) =>
              if (skipWs r4).head? = some ',' then
                match parseMembers fuel (skipWs r4).tail with
                | none => none
                | some (ms, r6) => some ((String.mk k, v) :: ms, r6)
              else if (skipWs r4).head? = some '}' then
                some ([(String.mk k, v)], (skipWs r4).tail)
              else none
          else none
      else none

end

/-- Model of `JSON.parse`: read one value, allow surrounding whitespace,
and require the whole input to be consumed. -/
def parseJson (s : String) : Option JsonVal :=
  match parseVal (s.data.length + 1) s.data with
  | some (v, rest) => if skipWs rest = [] then some v else none
  | none => none

/-- Escaping of one character inside a JSON string literal, the way
`JSON.stringify` does it. -/
def escapeChar (c : Char) : List Char :=
  if c = '"' then ['\\', '"']
  else if c = '\\' then ['\\', '\\']
  else if c = '\n' then ['\\', 'n']
  else if c = '\t' then ['\\', 't']
  else if c = '\r' then ['\\', 'r']
  else if c = Char.ofNat 8 then ['\\', 'b']
  else if c = Char.ofNat 12 then ['\\', 'f']
  else if c.toNat < 32 then
    ['\\', 'u', '0', '0', Nat.digitChar (c.toNat / 16), Nat.digitChar (c.toNat % 16)]
  else [c]

/-- Escaping of a whole string body. -/
def escapeStr : List Char → List Char
  | [] => []
  | c :: cs => escapeChar c ++ escapeStr cs

/-- Indentation: `n` spaces. -/
def indentChars (n : Nat) : List Char := List.replicate n ' '

/-- Rendering of an object key followed by the colon-space separator. -/
def keyChars (k : String) : List Char :=
  '"' :: (escapeStr k.data ++ ['"', ':', ' '])

mutual

/-- Model of `JSON.stringify(v, null, 2)` at nesting indentation `ind`:
scalars on one line, nonempty arrays and objects opened and closed on
their own lines with members indented two further spaces. -/
def prettyChars : Nat → JsonVal → List Char
  | _, .jnull => ['n', 'u', 'l', 'l']
  | _, .jbool true => ['t', 'r', 'u', 'e']
  | _, .jbool false => ['f', 'a', 'l', 's', 'e']
  | _, .jnum n => intChars n
  | _, .jstr s => '"' :: (escapeStr s.data ++ ['"'])
  | _, .jarr [] => ['[', ']']
  | ind, .jarr (x :: xs) =>
    '[' :: '\n' :: (prettyElems ind (x :: xs) ++ '\n' :: (indentChars ind ++ [']']))
  | _, .jobj [] => ['{', '}']
  | ind, .jobj (f :: fs) =>
    '{' :: '\n' :: (prettyMembers ind (f :: fs) ++ '\n' :: (indentChars ind ++ ['}']))

/-- Pretty-printed element lines of a nonempty array. -/
def prettyElems : Nat → List JsonVal → List Char
  | _, [] => []
  | ind, [x] => indentChars (ind + 2) ++ prettyChars (ind + 2) x
  | ind, x :: y :: xs =>
    indentChars (ind + 2) ++ prettyChars (ind + 2) x ++ ',' :: '\n' :: prettyElems ind (y :: xs)

/-- Pretty-printed member lines of a nonempty object. -/
def prettyMembers : Nat → List (String × JsonVal) → List Char
  | _, [] => []
  | ind, [(k, v)] => indentChars (ind + 2) ++ (keyChars k ++ prettyChars (ind + 2) v)
  | ind, (k, v) :: m :: ms =>
    indentChars (ind + 2) ++
      (keyChars k ++ prettyChars (ind + 2) v ++ ',' :: '\n' :: prettyMembers ind (m :: ms))

end

/-- Model of `JSON.stringify(v, null, 2)` as a string. -/
def prettyJson (v : JsonVal) : String := String.mk (prettyChars 0 v)

mutual

/-- Fuel bound needed by `parseVal` to read back a pretty-printed value. -/
def weight : JsonVal → Nat
  | .jnull => 1
  | .jbool _ => 1
  | .jnum _ => 1
  | .jstr _ => 1
  | .jarr xs => 1 + weightList xs
  | .jobj fs => 1 + weightMembers fs

/-- Fuel bound for element lists. -/
def weightList : List JsonVal → Nat
  | [] => 1
  | x :: xs => 1 + weight x + weightList xs

/-- Fuel bound for member lists. -/
def weightMembers : List (String × JsonVal) → Nat
  | [] => 1
  | (_, v) :: ms => 1 + weight v + weightMembers ms

end

/-! The Request Normalizer and the Interception Layer. -/

/-- Model of the JavaScript idiom `x || d` on an optionally-present string
(absent and the empty string are falsy). -/
def jsOrStr : Option String → String → String
  | some s, d => if s = "" then d else s
  | none, d => d

/-- Body normalization shared verbatim by the two capture sites
(`monitorGQL` lines 63 to 70 and the XHR `send` override lines 226 to 233):
a falsy body yields no `body` field; a parseable body is re-serialized with
2-space indentation; a non-JSON body is kept verbatim, the parse error
being swallowed by the local try/catch. -/
def normBody : Option String → Option String
  | none => none
  | some b =>
    if b = "" then none
    else
      some
        (match parseJson b with
         | some j => prettyJson j
         | none => b)

/-- The canonical captured request config.  The fetch path stores
`headers`, `method`, `mode`, `credentials` and optionally `body`; the XHR
path builds its object with only `headers`, `method` and optionally `body`,
which the `Option` fields for `mode` and `credentials` record as `none`. -/
structure CleanConfig where
  headers : List (String × String)
  method : String
  mode : Option String
  credentials : Option String
  body : Option String
deriving DecidableEq

/-- A stored capture: `BrowserUtils.firstCapture = { url, config: cleanConfig }`. -/
structure Template where
  url : String
  config : CleanConfig
deriving DecidableEq

/-- The `init` argument of a fetch call (second argument), with every field
optionally present.  A body, when present, is modelled as text. -/
structure InitRec where
  headers : Option (List (String × String))
  method : Option String
  mode : Option String
  credentials : Option String
  body : Option String
deriving DecidableEq

/-- The Request Normalizer of the fetch path (`monitorGQL` lines 57 to 70):
`cleanConfig` built from the init object with the documented defaults, plus
the normalized body. -/
def fetchClean (init : InitRec) : CleanConfig :=
  { headers := init.headers.getD []
  , method := jsOrStr init.method "GET"
  , mode := some (jsOrStr init.mode "cors")
  , credentials := some (jsOrStr init.credentials "same-origin")
  , body := normBody init.body }

/-- The template stored by the fetch path on a match. -/
def fetchTemplate (url : String) (init : Option InitRec) : Template :=
  { url := url, config := fetchClean (init.getD ⟨none, none, none, none, none⟩) }

/-- Resolution of the request URL from the first fetch argument
(`typeof resource === "string" ? resource : resource.url`): a string is
itself; property access on `undefined` or `null` throws; on an object it
reads the `url` field; on any other primitive it yields `undefined`. -/
def resourceUrl : Option JsonVal → Except JsError (Option JsonVal)
  | some (.jstr s) => .ok (some (.jstr s))
  | some (.jobj fs) => .ok (lookupKey fs "url")
  | some .jnull => .error .typeError
  | some _ => .ok none
  | none => .error .typeError

/-- Evaluation of `url.includes(filter)`: defined on strings; on
`undefined` or any other modelled non-string value the property access
yields no function and the call throws a TypeError. -/
def urlIncludes : Option JsonVal → String → Except JsError Bool
  | some (.jstr s), f => .ok (jsIncludes s f)
  | _, _ => .error .typeError

/-- The filter-match-and-capture step inside the fetch proxy try block
(`monitorGQL` lines 52 to 85): resolve the URL, test
`config.filter && url.includes(config.filter)` (left operand first, so an
empty filter short-circuits to no match), and build the stored template on
a match.  A thrown error anywhere is reported in the `Except`. -/
def tryCaptureFetch (filter : String) (resource : Option JsonVal) (init : Option InitRec) :
    Except JsError (Option Template) :=
  match resourceUrl resource with
  | .error e => .error e
  | .ok u =>
    if filter = "" then .ok none
    else
      match urlIncludes u filter with
      | .error e => .error e
      | .ok true =>
        match u with
        | some (.jstr s) => .ok (some (fetchTemplate s init))
        | _ => .ok none
      | .ok false => .ok none

/-- Record of the underlying network call performed by a wrapped fetch:
`Reflect.apply(target, thisArg, args)` with the original argument list. -/
structure RealFetchCall where
  resource : Option JsonVal
  init : Option InitRec

/-- The fetch proxy apply trap installed by `monitorGQL` (lines 49 to 91):
run the capture step inside try/catch (an error only skips the capture),
then always perform and return the real call with the original arguments. -/
def fetchProxy (filter : String) (prev : Option Template) (resource : Option JsonVal)
    (init : Option InitRec) : Option Template × RealFetchCall :=
  ( match tryCaptureFetch filter resource init with
    | .ok (some t) => some t
    | .ok none => prev
    | .error _ => prev
  , ⟨resource, init⟩ )

/-- The config object built by the XHR capture site (lines 222 to 233):
headers and method with defaults, the same body normalization, and no
`mode` or `credentials` fields. -/
def xhrClean (xmethod : Option String) (xheaders : Option (List (String × String)))
    (body : Option String) : CleanConfig :=
  { headers := xheaders.getD []
  , method := jsOrStr xmethod "GET"
  , mode := none
  , credentials := none
  , body := normBody body }

/-- Record of the underlying `originalXHRSend.apply(this, arguments)`. -/
structure RealSendCall where
  body : Option String
deriving DecidableEq

/-- The overridden `XMLHttpRequest.prototype.send` (lines 216 to 249).
There is no try/catch around the filter test: the truthiness of
`this._xhrUrl` and of the filter are checked first, and then
`this._xhrUrl.includes(filter)` is called, which throws a TypeError when
the stored URL is a truthy non-string value; such a throw propagates and
the original send is never reached, which the `Except.error` result
records.  On the non-throwing paths the original send always runs with the
original body. -/
def xhrSend (prev : Option Template) (hasBrowserUtils : Bool) (filter : String)
    (xurl : Option JsonVal) (xmethod : Option String)
    (xheaders : Option (List (String × String))) (body : Option String) :
    Except JsError (Option Template × RealSendCall) :=
  let f := if hasBrowserUtils then filter else ""
  match xurl with
  | none => .ok (prev, ⟨body⟩)
  | some u =>
    if truthy u then
      if f = "" then .ok (prev, ⟨body⟩)
      else
        match u with
        | .jstr s =>
          if jsIncludes s f then .ok (some ⟨s, xhrClean xmethod xheaders body⟩, ⟨body⟩)
          else .ok (prev, ⟨body⟩)
        | _ => .error .typeError
    else .ok (prev, ⟨body⟩)

/-! Configuration updates from the panel. -/

/-- Model of `parseInt(s, 10)`: skip leading whitespace, read an optional
sign and then a nonempty digit run, ignoring any trailing characters;
`none` is the NaN result. -/
def jsParseInt (s : String) : Option Int :=
  match skipWs s.data with
  | '-' :: r => (parseNat r).map (fun p => (-(p.1 : Int)))
  | '+' :: r => (parseNat r).map (fun p => ((p.1 : Int)))
  | r => (parseNat r).map (fun p => ((p.1 : Int)))

/-- The pageSize assignment of `updateConfigFromPanel` (line 42):
`parseInt(value, 10) || defaultConfig.pageSize`, where the right operand is
taken when the parse result is NaN or zero (the falsy numbers). -/
def updatePageSize (s : String) : Int :=
  match jsParseInt s with
  | none => 20
  | some n => if n = 0 then 20 else n

/-! The Replay Engine (`executeRequest`) and its URL mutation. -/

/-- Structured URL: the part before the query string, and the query
parameters in order. -/
structure UrlRec where
  base : String
  params : List (String × String)
deriving DecidableEq

/-- Splitting a character list at the first occurrence of a separator. -/
def splitFirst (sep : Char) : List Char → List Char × Option (List Char)
  | [] => ([], none)
  | c :: r =>
    if c = sep then ([], some r)
    else
      match splitFirst sep r with
      | (pre, rest) => (c :: pre, rest)

/-- Splitting a character list at every occurrence of a separator, in the
manner of `String.prototype.split` with a one-character separator. -/
def splitAllChars (sep : Char) : List Char → List (List Char)
  | [] => [[]]
  | c :: r =>
    match splitAllChars sep r with
    | [] => if c = sep then [[], []] else [[c]]
    | s :: ss => if c = sep then [] :: s :: ss else (c :: s) :: ss

/-- Reading one `key=value` query pair (no `=` means an empty value). -/
def readParam (seg : List Char) : String × String :=
  match splitFirst '=' seg with
  | (k, none) => (String.mk k, "")
  | (k, some v) => (String.mk k, String.mk v)

/-- Model of `new URL(s)` restricted to what the engine relies on: the
input must contain a scheme separator, and everything after the first `?`
is read as query parameters.  Inputs without `://` model the URLs on which
the constructor throws. -/
def parseUrl (s : String) : Option UrlRec :=
  if isInfixOfChars [':', '/', '/'] s.data then
    match splitFirst '?' s.data with
    | (base, none) => some ⟨String.mk base, []⟩
    | (base, some q) =>
      some ⟨String.mk base,
            ((splitAllChars '&' q).filter (fun seg => ¬seg.isEmpty)).map readParam⟩
  else none

/-- Model of `urlObj.searchParams.set(k, v)`: overwrite the first pair with
the given key and drop any later duplicates, or append when absent. -/
def setParam : List (String × String) → String → String → List (String × String)
  | [], k, v => [(k, v)]
  | (k0, v0) :: r, k, v =>
    if k0 = k then (k, v) :: r.filter (fun p => ¬p.1 = k)
    else (k0, v0) :: setParam r k v

/-- Model of `urlObj.toString()`. -/
def urlToString (u : UrlRec) : String :=
  if u.params.isEmpty then u.base
  else
    u.base ++ "?" ++
      String.intercalate "&" (u.params.map (fun p => p.1 ++ "=" ++ p.2))

/-- The URL mutation of `executeRequest` (lines 125 to 132): parse the
stored URL, set the configured parameter to the new value, and fall back to
the unmodified original string when parsing throws. -/
def mutateUrl (origUrl paramName : String) (newValue : Int) : String :=
  match parseUrl origUrl with
  | some u => urlToString ⟨u.base, setParam u.params paramName (intStr newValue)⟩
  | none => origUrl

/-- The init object that `fetch(updatedUrl, config)` receives inside
`executeRequest`: the deep-copied clean config passed as a fetch init.
`JSON.parse(JSON.stringify(config))` is the identity on the stored
JSON-safe record, so the copy is the record itself, with every present
field visible to the proxy. -/
def initOfClean (c : CleanConfig) : InitRec :=
  ⟨some c.headers, some c.method, c.mode, c.credentials, c.body⟩

/-- The engine state that `executeRequest` interacts with: whether the
fetch proxy is installed, the stored capture, and the two config fields it
reads. -/
structure EngineState where
  monitoring : Bool
  firstCapture : Option Template
  filter : String
  paramName : String
deriving DecidableEq

/-- Model of `executeRequest(newValue)` (lines 117 to 140) up to the issued
call: throw `noCapture` when nothing is stored; otherwise mutate the URL
and invoke the CURRENT `window.fetch` - the proxy while monitoring is on,
so a matching replay URL re-enters the capture logic - returning the new
engine state and the performed underlying call. -/
def executeRequestStep (st : EngineState) (newValue : Int) :
    Except JsError (EngineState × RealFetchCall) :=
  match st.firstCapture with
  | none => .error .noCapture
  | some t =>
    let updatedUrl := mutateUrl t.url st.paramName newValue
    let init := initOfClean t.config
    if st.monitoring then
      match fetchProxy st.filter st.firstCapture (some (.jstr updatedUrl)) (some init) with
      | (cap2, call) => .ok ({ st with firstCapture := cap2 }, call)
    else .ok (st, ⟨some (.jstr updatedUrl), some init⟩)

/-- Observable projection of a replay: the stored capture after the call,
or `none` when `executeRequest` threw before issuing anything. -/
def afterReplayCapture (st : EngineState) (newValue : Int) : Option (Option Template) :=
  match executeRequestStep st newValue with
  | .ok (st2, _) => some st2.firstCapture
  | .error _ => none

/-- Observable projection of a replay: the URL string handed to the
underlying fetch, when the issued resource argument is a string. -/
def replayCalledUrl (st : EngineState) (newValue : Int) : Option String :=
  match executeRequestStep st newValue with
  | .ok (_, call) =>
    match call.resource with
    | some (.jstr s) => some s
    | _ => none
  | .error _ => none

/-! The Pagination Collector (`collectAndDownload`). -/

/-- Observable events of a collection run: the fixed inter-request delay
and the issuing of one replay with its page value. -/
inductive Event where
  | sleep : Nat → Event
  | request : Int → Event
deriving DecidableEq

/-- Outcome of the per-page extraction: the environment `env` gives each
replay result (`.error` for a network or response-JSON failure), and the
Path Extractor is then applied; only a defined extracted value survives. -/
def pageOutcome (H : HostSpec) (env : Nat → Except JsError JsonVal) (jsonPath : String)
    (i : Nat) : Option (JsonVal ⊕ H.V) :=
  match env i with
  | .error _ => none
  | .ok data =>
    match getValueByPath H data jsonPath with
    | .error _ => none
    | .ok extracted => extracted

/-- The loop of `collectAndDownload` (lines 167 to 182), from iteration `i`
with `rem` iterations left: each iteration sleeps 1000 ms when `i > 0`,
issues the replay with page value `startValue + i * pageSize`, and appends
the extracted value when the page succeeds; every per-page failure (replay
error, extractor throw, or undefined extracted value) only skips the page. -/
def collectPages (H : HostSpec) (env : Nat → Except JsError JsonVal) (jsonPath : String)
    (startValue pageSize : Int) : Nat → Nat → List Event × List (JsonVal ⊕ H.V)
  | _, 0 => ([], [])
  | i, rem + 1 =>
    let pre : List Event := if 0 < i then [.sleep 1000] else []
    let contrib : List (JsonVal ⊕ H.V) :=
      match pageOutcome H env jsonPath i with
      | some v => [v]
      | none => []
    match collectPages H env jsonPath startValue pageSize (i + 1) rem with
    | (evs, res) =>
      (pre ++ .request (startValue + (i : Int) * pageSize) :: evs, contrib ++ res)

/-- Model of `collectAndDownload(startValue, totalPages)` (lines 159 to
189): a missing capture aborts with no work; otherwise the loop runs over
all pages, and the aggregate is handed to `download("data.json", result)`
only when nonempty. -/
def collectAndDownload (H : HostSpec) (env : Nat → Except JsError JsonVal)
    (jsonPath : String) (firstCapture : Option Template) (startValue pageSize : Int)
    (totalPages : Nat) :
    List Event × List (JsonVal ⊕ H.V) × Option (String × List (JsonVal ⊕ H.V)) :=
  match firstCapture with
  | none => ([], [], none)
  | some _ =>
    match collectPages H env jsonPath startValue pageSize 0 totalPages with
    | (evs, res) =>
      (evs, res, if res.isEmpty then none else some ("data.json", res))

/-- Guard for the characters that may legally follow a printed numeral. -/
def noDigitStart : List Char → Bool
  | [] => true
  | c :: _ => !isDigit c

/-- The page values issued by a collection trace, in order. -/
def requestValues (tr : List Event) : List Int :=
  tr.filterMap (fun e => match e with | .request v => some v | _ => none)

/-- A clean config as the fetch path stores it for a bare GET. -/
def sampleConfig : CleanConfig :=
  ⟨[], "GET", some "cors", some "same-origin", none⟩

/-- A stored capture of a paginated data URL. -/
def sampleTemplate : Template := ⟨"http://x/api/data?page=1", sampleConfig⟩

/-- Engine state with monitoring on and an empty filter. -/
def sampleStateEmptyFilter : EngineState := ⟨true, some sampleTemplate, "", "page"⟩

/-- Engine state with monitoring on and a filter the template URL matches. -/
def sampleStateMatching : EngineState := ⟨true, some sampleTemplate, "api/data", "page"⟩

/-- A replay environment where page 1 fails and the other pages return a
one-element array. -/
def sampleEnv : Nat → Except JsError JsonVal :=
  fun i => if i = 1 then .error .requestFailed else .ok (.jarr [.jnum i])

/-- A small concrete host instance used by witnesses and counterexamples:
a handful of the inherited properties every engine provides, with host
values identified by name.  The full tables are engine dependent; every
theorem about the extractor holds for every `HostSpec`, this instance only
supplies concrete inputs. -/
def sampleHost : HostSpec where
  V := String
  truthyH _ := true
  memH _ p := .ok (p = "name" || p = "length")
  getH h p :=
    if p = "name" then .ok (Sum.inl (.jstr h))
    else if p = "length" then .ok (Sum.inl (.jnum 0))
    else .error .typeError
  objProto p :=
    if p = "toString" then some (.ok (Sum.inr "toString"))
    else if p = "hasOwnProperty" then some (.ok (Sum.inr "hasOwnProperty"))
    else if p = "constructor" then some (.ok (Sum.inr "Object"))
    else none
  arrProto p :=
    if p = "toString" then some (.ok (Sum.inr "toString"))
    else if p = "constructor" then some (.ok (Sum.inr "Array"))
    else if p = "push" then some (.ok (Sum.inr "push"))
    else none

/-! Supporting lemmas: decimal digits and numerals. -/

/-- Digit characters of digits. -/
theorem isDigit_digitChar {d : Nat} (h : d < 10) : isDigit (Nat.digitChar d) = true := by
  interval_cases d <;> decide

/-- Reading back the digit character of a digit. -/
theorem digitVal_digitChar {d : Nat} (h : d < 10) : digitVal (Nat.digitChar d) = d := by
  interval_cases d <;> decide

/-- A digit character is none of the characters the value reader
dispatches on, nor whitespace, nor a closing token. -/
theorem isDigit_facts {c : Char} (h : isDigit c = true) :
    isWs c = false ∧ c ≠ 'n' ∧ c ≠ 't' ∧ c ≠ 'f' ∧ c ≠ '"' ∧ c ≠ '[' ∧ c ≠ '{' ∧
      c ≠ ']' ∧ c ≠ '}' ∧ c ≠ ',' ∧ c ≠ '-' := by
  refine ⟨?_, ?_, ?_, ?_, ?_, ?_, ?_, ?_, ?_, ?_, ?_⟩ <;>
    first
      | (intro he; subst he; exact absurd h (by decide))
      | (cases hw : isWs c with
         | false => rfl
         | true =>
           exfalso
           simp only [isWs, Bool.or_eq_true, decide_eq_true_eq] at hw
           rcases hw with ((h1 | h1) | h1) | h1 <;> (subst h1; exact absurd h (by decide)))

/-- With enough fuel, `natCharsAux` yields a nonempty all-digit list. -/
theorem natCharsAux_digits :
    ∀ n fuel, n < fuel →
      natCharsAux fuel n ≠ [] ∧ ∀ c ∈ natCharsAux fuel n, isDigit c = true := by
  intro n
  induction n using Nat.strong_induction_on with
  | _ n ih =>
    intro fuel hlt
    cases fuel with
    | zero => omega
    | succ f =>
      by_cases h10 : n < 10
      · simp [natCharsAux, h10, isDigit_digitChar h10]
      · have hdiv : n / 10 < n := Nat.div_lt_self (by omega) (by omega)
        have hrec := ih (n / 10) hdiv f (by omega)
        simp only [natCharsAux, if_neg h10]
        constructor
        · simp
        · intro c hc
          rcases List.mem_append.mp hc with hc | hc
          · exact hrec.2 c hc
          · simp at hc
            subst hc
            exact isDigit_digitChar (Nat.mod_lt _ (by omega))

/-- The digit list of `n` is nonempty. -/
theorem natChars_ne_nil (n : Nat) : natChars n ≠ [] :=
  (natCharsAux_digits n (n + 1) (Nat.lt_succ_self n)).1

/-- Every character of the digit list of `n` is a digit. -/
theorem natChars_digits (n : Nat) : ∀ c ∈ natChars n, isDigit c = true :=
  (natCharsAux_digits n (n + 1) (Nat.lt_succ_self n)).2

/-- Decimal reading of `natCharsAux` with an accumulator. -/
theorem digitsToNat_natCharsAux :
    ∀ n fuel acc, n < fuel →
      digitsToNat acc (natCharsAux fuel n) =
        acc * 10 ^ (natCharsAux fuel n).length + n := by
  intro n
  induction n using Nat.strong_induction_on with
  | _ n ih =>
    intro fuel acc hlt
    cases fuel with
    | zero => omega
    | succ f =>
      by_cases h10 : n < 10
      · simp [natCharsAux, h10, digitsToNat, digitVal_digitChar h10]
      · have hdiv : n / 10 < n := Nat.div_lt_self (by omega) (by omega)
        have hrec := ih (n / 10) hdiv f acc (by omega)
        simp only [natCharsAux, if_neg h10, digitsToNat, List.foldl_append] at *
        simp only [List.foldl_cons, List.foldl_nil]
        rw [hrec]
        have hm : digitVal (Nat.digitChar (n % 10)) = n % 10 :=
          digitVal_digitChar (Nat.mod_lt _ (by omega))
        rw [hm]
        simp [List.length_append, pow_succ]
        have := Nat.div_add_mod n 10
        ring_nf
        omega

/-- Decimal reading of the digit list of `n`. -/
theorem digitsToNat_natChars (n : Nat) : digitsToNat 0 (natChars n) = n := by
  have := digitsToNat_natCharsAux n (n + 1) 0 (Nat.lt_succ_self n)
  simpa [natChars] using this

/-- Digit spans split exactly at the boundary of an all-digit prefix. -/
theorem spanDigits_append {ds rest : List Char} (hds : ∀ c ∈ ds, isDigit c = true)
    (hrest : noDigitStart rest = true) : spanDigits (ds ++ rest) = (ds, rest) := by
  induction ds with
  | nil =>
    cases rest with
    | nil => rfl
    | cons c r =>
      simp [noDigitStart] at hrest
      simp [spanDigits, hrest]
  | cons c cs ih =>
    have hc : isDigit c = true := hds c (by simp)
    have ihr := ih (fun d hd => hds d (by simp [hd]))
    simp [spanDigits, hc, ihr]

/-- Reading back a printed natural numeral. -/
theorem parseNat_natChars (n : Nat) {rest : List Char} (hrest : noDigitStart rest = true) :
    parseNat (natChars n ++ rest) = some (n, rest) := by
  have hspan := spanDigits_append (natChars_digits n) hrest
  have hne := natChars_ne_nil n
  cases hnc : natChars n with
  | nil => exact absurd hnc hne
  | cons c cs =>
    rw [hnc] at hspan
    have hd := digitsToNat_natChars n
    rw [hnc] at hd
    simp only [List.cons_append] at hspan
    simp only [parseNat, List.cons_append, hspan, hd]

/-- Reading back a printed integral numeral. -/
theorem parseNumber_intChars (n : Int) {rest : List Char} (hrest : noDigitStart rest = true) :
    parseNumber (intChars n ++ rest) = some (n, rest) := by
  by_cases hneg : n < 0
  · simp only [intChars, if_pos hneg, List.cons_append]
    simp only [parseNumber, List.head?_cons, List.tail_cons, if_pos rfl]
    rw [parseNat_natChars n.natAbs hrest]
    simp only [Option.map_some']
    have hn : -((n.natAbs : Int)) = n := by omega
    simp [hn, abs_of_neg hneg]
  · simp only [intChars, if_neg hneg]
    have hne := natChars_ne_nil n.toNat
    cases hnc : natChars n.toNat with
    | nil => exact absurd hnc hne
    | cons c cs =>
      have hc : isDigit c = true := natChars_digits n.toNat c (by simp [hnc])
      have hfacts := isDigit_facts hc
      have hpn : parseNat (natChars n.toNat ++ rest) = some (n.toNat, rest) :=
        parseNat_natChars n.toNat hrest
      rw [hnc] at hpn
      simp only [List.cons_append] at hpn
      simp only [parseNumber, List.cons_append, List.head?_cons]
      rw [if_neg (by simpa using hfacts.2.2.2.2.2.2.2.2.2.2)]
      rw [hpn]
      simp only [Option.map_some']
      have hn : ((n.toNat : Int)) = n := by omega
      simp [hn]

/-! Supporting lemmas: whitespace skipping. -/

/-- Skipping is unaffected by an all-whitespace prefix. -/
theorem skipWs_ws_append {pre : List Char} (h : ∀ c ∈ pre, isWs c = true) (l : List Char) :
    skipWs (pre ++ l) = skipWs l := by
  induction pre with
  | nil => rfl
  | cons c cs ih =>
    have hc := h c (by simp)
    simp [skipWs, hc, ih (fun d hd => h d (by simp [hd]))]

/-- Skipping stops at a non-whitespace head. -/
theorem skipWs_cons_of_not {c : Char} (h : isWs c = false) (l : List Char) :
    skipWs (c :: l) = c :: l := by
  simp [skipWs, h]

/-- Indentation is all whitespace. -/
theorem skipWs_indent (n : Nat) (l : List Char) : skipWs (indentChars n ++ l) = skipWs l :=
  skipWs_ws_append (fun c hc => by
    have : c = ' ' := List.eq_of_mem_replicate (by simpa [indentChars] using hc)
    subst this
    decide) l

/-! Supporting lemmas: string escaping. -/

/-- Reading back a printed hexadecimal digit. -/
theorem parseHexDigit_digitChar {d : Nat} (h : d < 16) :
    parseHexDigit (Nat.digitChar d) = some d := by
  interval_cases d <;> decide

/-- One escaped character reads back as itself in front of any readable
continuation. -/
theorem parseStringBody_escapeChar (c : Char) {l out rest : List Char}
    (h : parseStringBody l = some (out, rest)) :
    parseStringBody (escapeChar c ++ l) = some (c :: out, rest) := by
  by_cases h1 : c = '"'
  · subst h1
    rw [show escapeChar '"' = ['\\', '"'] by decide, parseStringBody.eq_def]
    simp +decide [unescape, h]
  by_cases h2 : c = '\\'
  · subst h2
    rw [show escapeChar '\\' = ['\\', '\\'] by decide, parseStringBody.eq_def]
    simp +decide [unescape, h]
  by_cases h3 : c = '\n'
  · subst h3
    rw [show escapeChar '\n' = ['\\', 'n'] by decide, parseStringBody.eq_def]
    simp +decide [unescape, h]
  by_cases h4 : c = '\t'
  · subst h4
    rw [show escapeChar '\t' = ['\\', 't'] by decide, parseStringBody.eq_def]
    simp +decide [unescape, h]
  by_cases h5 : c = '\r'
  · subst h5
    rw [show escapeChar '\r' = ['\\', 'r'] by decide, parseStringBody.eq_def]
    simp +decide [unescape, h]
  by_cases h6 : c = Char.ofNat 8
  · subst h6
    rw [show escapeChar (Char.ofNat 8) = ['\\', 'b'] by decide, parseStringBody.eq_def]
    simp +decide [unescape, h]
  by_cases h7 : c = Char.ofNat 12
  · subst h7
    rw [show escapeChar (Char.ofNat 12) = ['\\', 'f'] by decide, parseStringBody.eq_def]
    simp +decide [unescape, h]
  by_cases h8 : c.toNat < 32
  · simp only [escapeChar, if_neg h1, if_neg h2, if_neg h3, if_neg h4, if_neg h5,
      if_neg h6, if_neg h7, if_pos h8, List.cons_append, List.nil_append]
    have hdiv : c.toNat / 16 < 16 := by omega
    have hmod : c.toNat % 16 < 16 := Nat.mod_lt _ (by omega)
    have hvalid : Nat.isValidChar c.toNat := Or.inl (by omega)
    have hda : (((0 : Nat) * 16 + 0) * 16 + c.toNat / 16) * 16 + c.toNat % 16 = c.toNat := by
      omega
    rw [parseStringBody.eq_def]
    simp +decide [show parseHexDigit '0' = some 0 by decide, parseHexDigit_digitChar hdiv,
      parseHexDigit_digitChar hmod, hda, hvalid, Char.ofNat_toNat, h]
    have hda2 : c.toNat / 16 * 16 + c.toNat % 16 = c.toNat := by omega
    rw [hda2]
    exact ⟨hvalid, Char.ofNat_toNat c⟩
  · simp only [escapeChar, if_neg h1, if_neg h2, if_neg h3, if_neg h4, if_neg h5,
      if_neg h6, if_neg h7, if_neg h8, List.cons_append, List.nil_append]
    rw [parseStringBody.eq_def]
    simp [if_neg h1, if_neg h2, h8, h]

/-- An escaped string body followed by the closing quote reads back as the
original string. -/
theorem parseStringBody_escapeStr (cs : List Char) (rest : List Char) :
    parseStringBody (escapeStr cs ++ '"' :: rest) = some (cs, rest) := by
  induction cs with
  | nil =>
    simp only [escapeStr, List.nil_append]
    rw [parseStringBody.eq_def]
    simp +decide
  | cons c cs ih =>
    have := parseStringBody_escapeChar c ih
    simpa [escapeStr, List.append_assoc] using this

/-! Supporting lemmas: shape of the pretty-printed output. -/

/-- Weights are positive. -/
theorem weight_pos (v : JsonVal) : 1 ≤ weight v := by
  cases v <;> simp [weight, weightList, weightMembers]

/-- List weights are positive. -/
theorem weightList_pos (xs : List JsonVal) : 1 ≤ weightList xs := by
  cases xs with
  | nil => simp [weightList]
  | cons x xs =>
    simp only [weightList]
    omega

/-- Member-list weights are positive. -/
theorem weightMembers_pos (ms : List (String × JsonVal)) : 1 ≤ weightMembers ms := by
  cases ms with
  | nil => simp [weightMembers]
  | cons m ms =>
    rcases m with ⟨k, v⟩
    simp only [weightMembers]
    omega

/-- A pretty-printed value starts with a non-whitespace character that is
not a closing bracket. -/
theorem prettyChars_head (ind : Nat) (v : JsonVal) :
    ∃ c cs, prettyChars ind v = c :: cs ∧ isWs c = false ∧ c ≠ ']' ∧ c ≠ '}' := by
  cases v with
  | jnull =>
    exact ⟨'n', ['u', 'l', 'l'], by simp [prettyChars], by decide, by decide, by decide⟩
  | jbool b =>
    cases b with
    | true =>
      exact ⟨'t', ['r', 'u', 'e'], by simp [prettyChars], by decide, by decide, by decide⟩
    | false =>
      exact ⟨'f', ['a', 'l', 's', 'e'], by simp [prettyChars], by decide, by decide, by decide⟩
  | jnum n =>
    by_cases hneg : n < 0
    · exact ⟨'-', natChars n.natAbs, by simp [prettyChars, intChars, hneg], by decide,
        by decide, by decide⟩
    · cases hnc : natChars n.toNat with
      | nil => exact absurd hnc (natChars_ne_nil n.toNat)
      | cons c cs =>
        have hc : isDigit c = true := natChars_digits n.toNat c (by simp [hnc])
        have hf := isDigit_facts hc
        exact ⟨c, cs, by simp [prettyChars, intChars, hneg, hnc], hf.1,
          hf.2.2.2.2.2.2.2.1, hf.2.2.2.2.2.2.2.2.1⟩
  | jstr s =>
    exact ⟨'"', escapeStr s.data ++ ['"'], by simp [prettyChars], by decide, by decide,
      by decide⟩
  | jarr xs =>
    cases xs with
    | nil => exact ⟨'[', [']'], by simp [prettyChars], by decide, by decide, by decide⟩
    | cons x xs =>
      exact ⟨'[', '\n' :: (prettyElems ind (x :: xs) ++ '\n' :: (indentChars ind ++ [']'])),
        by simp [prettyChars], by decide, by decide, by decide⟩
  | jobj fs =>
    cases fs with
    | nil => exact ⟨'{', ['}'], by simp [prettyChars], by decide, by decide, by decide⟩
    | cons f fs =>
      exact ⟨'{', '\n' :: (prettyMembers ind (f :: fs) ++ '\n' :: (indentChars ind ++ ['}'])),
        by simp [prettyChars], by decide, by decide, by decide⟩

/-- The value reader ignores an all-whitespace prefix. -/
theorem parseVal_ws_absorb (fuel : Nat) {pre : List Char} (hpre : ∀ c ∈ pre, isWs c = true)
    (l : List Char) : parseVal fuel (pre ++ l) = parseVal fuel l := by
  cases fuel with
  | zero => rfl
  | succ f =>
    rw [parseVal, parseVal, skipWs_ws_append hpre]

/-- Skipping consumes a whitespace head. -/
theorem skipWs_cons_ws {c : Char} (h : isWs c = true) (l : List Char) :
    skipWs (c :: l) = skipWs l := by
  simp [skipWs, h]

/-- The value reader ignores a newline-plus-indentation prefix. -/
theorem parseVal_nl_indent (fuel m : Nat) (l : List Char) :
    parseVal fuel ('\n' :: (indentChars m ++ l)) = parseVal fuel l := by
  have hsh : ('\n' :: (indentChars m ++ l)) = ('\n' :: indentChars m) ++ l := by simp
  rw [hsh]
  apply parseVal_ws_absorb
  intro c hc
  rcases List.mem_cons.mp hc with hc | hc
  · subst hc; decide
  · have : c = ' ' := List.eq_of_mem_replicate (by simpa [indentChars] using hc)
    subst this; decide

/-- The value reader ignores one leading space. -/
theorem parseVal_space (fuel : Nat) (l : List Char) :
    parseVal fuel (' ' :: l) = parseVal fuel l := by
  have hsh : (' ' :: l) = [' '] ++ l := rfl
  rw [hsh]
  apply parseVal_ws_absorb
  intro c hc
  simp at hc
  subst hc
  decide

/-- After the newline that follows an opening bracket, the first
non-whitespace character of a nonempty element block is the head of its
first pretty-printed element, hence not a closing bracket. -/
theorem skipWs_elems_head (ind : Nat) (x : JsonVal) (xs : List JsonVal) (tail : List Char) :
    ∃ c cs, skipWs ('\n' :: (prettyElems ind (x :: xs) ++ tail)) = c :: cs ∧
      isWs c = false ∧ c ≠ ']' ∧ c ≠ '}' := by
  obtain ⟨c, cs, hpc, hws, hb1, hb2⟩ := prettyChars_head (ind + 2) x
  cases xs with
  | nil =>
    refine ⟨c, cs ++ tail, ?_, hws, hb1, hb2⟩
    have h1 : prettyElems ind [x] = indentChars (ind + 2) ++ prettyChars (ind + 2) x := by
      simp [prettyElems]
    rw [h1, skipWs_cons_ws (by decide), List.append_assoc, skipWs_indent, hpc,
      List.cons_append, skipWs_cons_of_not hws]
  | cons y ys =>
    refine ⟨c, cs ++ (',' :: '\n' :: prettyElems ind (y :: ys) ++ tail), ?_, hws, hb1, hb2⟩
    have h1 : prettyElems ind (x :: y :: ys) =
        indentChars (ind + 2) ++ prettyChars (ind + 2) x ++
          ',' :: '\n' :: prettyElems ind (y :: ys) := by
      simp [prettyElems]
    rw [h1, skipWs_cons_ws (by decide)]
    rw [show (indentChars (ind + 2) ++ prettyChars (ind + 2) x ++
          ',' :: '\n' :: prettyElems ind (y :: ys)) ++ tail =
        indentChars (ind + 2) ++ (prettyChars (ind + 2) x ++
          (',' :: '\n' :: prettyElems ind (y :: ys) ++ tail)) from by simp]
    rw [skipWs_indent, hpc, List.cons_append, skipWs_cons_of_not hws]

/-- After the newline that follows an opening brace, the first
non-whitespace character of a nonempty member block is the opening quote of
its first key. -/
theorem skipWs_members_head (ind : Nat) (k : String) (v : JsonVal)
    (ms : List (String × JsonVal)) (tail : List Char) :
    ∃ cs, skipWs ('\n' :: (prettyMembers ind ((k, v) :: ms) ++ tail)) = '"' :: cs := by
  cases ms with
  | nil =>
    refine ⟨escapeStr k.data ++ ('"' :: ':' :: ' ' :: (prettyChars (ind + 2) v ++ tail)), ?_⟩
    have h1 : prettyMembers ind [(k, v)] =
        indentChars (ind + 2) ++ (keyChars k ++ prettyChars (ind + 2) v) := by
      simp [prettyMembers]
    rw [h1, skipWs_cons_ws (by decide), List.append_assoc, skipWs_indent, keyChars]
    rw [show ('"' :: (escapeStr k.data ++ ['"', ':', ' ']) ++ prettyChars (ind + 2) v) ++ tail =
        '"' :: (escapeStr k.data ++ ('"' :: ':' :: ' ' :: (prettyChars (ind + 2) v ++ tail)))
        from by simp]
    rw [skipWs_cons_of_not (by decide)]
  | cons m2 ms2 =>
    refine ⟨escapeStr k.data ++ ('"' :: ':' :: ' ' :: (prettyChars (ind + 2) v ++
      (',' :: '\n' :: prettyMembers ind (m2 :: ms2) ++ tail))), ?_⟩
    have h1 : prettyMembers ind ((k, v) :: m2 :: ms2) =
        indentChars (ind + 2) ++ (keyChars k ++ prettyChars (ind + 2) v ++
          ',' :: '\n' :: prettyMembers ind (m2 :: ms2)) := by
      simp [prettyMembers]
    rw [h1, skipWs_cons_ws (by decide), List.append_assoc, skipWs_indent, keyChars]
    rw [show ('"' :: (escapeStr k.data ++ ['"', ':', ' ']) ++ prettyChars (ind + 2) v ++
          ',' :: '\n' :: prettyMembers ind (m2 :: ms2)) ++ tail =
        '"' :: (escapeStr k.data ++ ('"' :: ':' :: ' ' :: (prettyChars (ind + 2) v ++
          (',' :: '\n' :: prettyMembers ind (m2 :: ms2) ++ tail)))) from by simp]
    rw [skipWs_cons_of_not (by decide)]

/-- Core round trip: with fuel at least the weight of the value, the
reader consumes exactly the pretty-printed text (at any indentation) and
returns the value, for values, element lists, and member lists at once. -/
theorem parse_pretty_main : ∀ fuel : Nat,
    (∀ (v : JsonVal) (ind : Nat) (rest : List Char), weight v ≤ fuel →
      noDigitStart rest = true →
      parseVal fuel (prettyChars ind v ++ rest) = some (v, rest)) ∧
    (∀ (x : JsonVal) (xs : List JsonVal) (ind : Nat) (rest : List Char),
      weightList (x :: xs) ≤ fuel →
      parseElems fuel
        ('\n' :: (prettyElems ind (x :: xs) ++ '\n' :: (indentChars ind ++ ']' :: rest))) =
        some (x :: xs, rest)) ∧
    (∀ (k : String) (v : JsonVal) (ms : List (String × JsonVal)) (ind : Nat)
      (rest : List Char), weightMembers ((k, v) :: ms) ≤ fuel →
      parseMembers fuel
        ('\n' :: (prettyMembers ind ((k, v) :: ms) ++ '\n' :: (indentChars ind ++ '}' :: rest))) =
        some ((k, v) :: ms, rest)) := by
  intro fuel
  induction fuel with
  | zero =>
    refine ⟨fun v ind rest hw _ => ?_, fun x xs ind rest hw => ?_,
      fun k v ms ind rest hw => ?_⟩
    · exact absurd hw (by have := weight_pos v; omega)
    · exact absurd hw (by have := weightList_pos (x :: xs); omega)
    · exact absurd hw (by have := weightMembers_pos ((k, v) :: ms); omega)
  | succ f ih =>
    obtain ⟨ihP, ihQ, ihR⟩ := ih
    refine ⟨?_, ?_, ?_⟩
    · -- values
      intro v ind rest hw hrest
      cases v with
      | jnull =>
        rw [show prettyChars ind JsonVal.jnull = ['n', 'u', 'l', 'l'] from by
          simp [prettyChars]]
        rw [List.cons_append, parseVal, skipWs_cons_of_not (by decide)]
        simp +decide [expectChars]
      | jbool b =>
        cases b with
        | true =>
          rw [show prettyChars ind (JsonVal.jbool true) = ['t', 'r', 'u', 'e'] from by
            simp [prettyChars]]
          rw [List.cons_append, parseVal, skipWs_cons_of_not (by decide)]
          simp +decide [expectChars]
        | false =>
          rw [show prettyChars ind (JsonVal.jbool false) = ['f', 'a', 'l', 's', 'e'] from by
            simp [prettyChars]]
          rw [List.cons_append, parseVal, skipWs_cons_of_not (by decide)]
          simp +decide [expectChars]
      | jnum n =>
        have hpn := parseNumber_intChars n hrest
        by_cases hneg : n < 0
        · rw [show prettyChars ind (JsonVal.jnum n) = '-' :: natChars n.natAbs from by
            simp [prettyChars, intChars, hneg]]
          rw [intChars, if_pos hneg, List.cons_append] at hpn
          rw [List.cons_append, parseVal, skipWs_cons_of_not (by decide)]
          simp +decide [hpn]
        · cases hnc : natChars n.toNat with
          | nil => exact absurd hnc (natChars_ne_nil n.toNat)
          | cons c cs =>
            have hc : isDigit c = true := natChars_digits n.toNat c (by simp [hnc])
            have hf := isDigit_facts hc
            rw [show prettyChars ind (JsonVal.jnum n) = c :: cs from by
              simp [prettyChars, intChars, hneg, hnc]]
            rw [intChars, if_neg hneg, hnc, List.cons_append] at hpn
            rw [List.cons_append, parseVal, skipWs_cons_of_not hf.1]
            simp only [if_neg hf.2.1, if_neg hf.2.2.1, if_neg hf.2.2.2.1,
              if_neg hf.2.2.2.2.1, if_neg hf.2.2.2.2.2.1, if_neg hf.2.2.2.2.2.2.1]
            rw [hpn]
            rfl
      | jstr s =>
        rw [show prettyChars ind (JsonVal.jstr s) = '"' :: (escapeStr s.data ++ ['"']) from by
          simp [prettyChars]]
        rw [List.cons_append, parseVal, skipWs_cons_of_not (by decide)]
        have hsb := parseStringBody_escapeStr s.data rest
        rw [show (escapeStr s.data ++ ['"']) ++ rest = escapeStr s.data ++ '"' :: rest from by
          simp]
        simp +decide [hsb]
      | jarr xs =>
        cases xs with
        | nil =>
          rw [show prettyChars ind (JsonVal.jarr []) = ['[', ']'] from by simp [prettyChars]]
          rw [List.cons_append, parseVal, skipWs_cons_of_not (by decide)]
          simp +decide [skipWs]
        | cons x xs =>
          rw [show prettyChars ind (JsonVal.jarr (x :: xs)) =
            '[' :: '\n' :: (prettyElems ind (x :: xs) ++
              '\n' :: (indentChars ind ++ [']'])) from by simp [prettyChars]]
          rw [show ('[' :: '\n' :: (prettyElems ind (x :: xs) ++
              '\n' :: (indentChars ind ++ [']']))) ++ rest =
            '[' :: '\n' :: (prettyElems ind (x :: xs) ++
              '\n' :: (indentChars ind ++ ']' :: rest)) from by simp]
          rw [parseVal, skipWs_cons_of_not (by decide)]
          obtain ⟨c0, cs0, hh, hws0, hb1, hb2⟩ :=
            skipWs_elems_head ind x xs ('\n' :: (indentChars ind ++ ']' :: rest))
          have hq := ihQ x xs ind rest (by
            have h1 := weightList_pos xs
            simp only [weight] at hw
            omega)
          simp +decide only [hh, List.head?_cons, Option.some.injEq, hq]
          simp [hb1]
      | jobj fs =>
        cases fs with
        | nil =>
          rw [show prettyChars ind (JsonVal.jobj []) = ['{', '}'] from by simp [prettyChars]]
          rw [List.cons_append, parseVal, skipWs_cons_of_not (by decide)]
          simp +decide [skipWs]
        | cons m ms =>
          rcases m with ⟨k, v⟩
          rw [show prettyChars ind (JsonVal.jobj ((k, v) :: ms)) =
            '{' :: '\n' :: (prettyMembers ind ((k, v) :: ms) ++
              '\n' :: (indentChars ind ++ ['}'])) from by simp [prettyChars]]
          rw [show ('{' :: '\n' :: (prettyMembers ind ((k, v) :: ms) ++
              '\n' :: (indentChars ind ++ ['}']))) ++ rest =
            '{' :: '\n' :: (prettyMembers ind ((k, v) :: ms) ++
              '\n' :: (indentChars ind ++ '}' :: rest)) from by simp]
          rw [parseVal, skipWs_cons_of_not (by decide)]
          obtain ⟨cs0, hh⟩ :=
            skipWs_members_head ind k v ms ('\n' :: (indentChars ind ++ '}' :: rest))
          have hr := ihR k v ms ind rest (by
            have h1 := weightMembers_pos ms
            simp only [weight] at hw
            omega)
          simp +decide only [hh, List.head?_cons, Option.some.injEq, hr]
          simp
    · -- element lists
      intro x xs ind rest hw
      rw [parseElems]
      cases xs with
      | nil =>
        rw [show ('\n' :: (prettyElems ind [x] ++
            '\n' :: (indentChars ind ++ ']' :: rest))) =
          '\n' :: (indentChars (ind + 2) ++ (prettyChars (ind + 2) x ++
            ('\n' :: (indentChars ind ++ ']' :: rest)))) from by simp [prettyElems]]
        rw [parseVal_nl_indent]
        rw [ihP x (ind + 2) ('\n' :: (indentChars ind ++ ']' :: rest)) (by
            have h1 := weightList_pos ([] : List JsonVal)
            simp only [weightList] at hw
            omega) (by simp +decide [noDigitStart])]
        have hsw : skipWs ('\n' :: (indentChars ind ++ ']' :: rest)) = ']' :: rest := by
          rw [skipWs_cons_ws (by decide), skipWs_indent, skipWs_cons_of_not (by decide)]
        simp +decide [hsw]
      | cons y ys =>
        rw [show ('\n' :: (prettyElems ind (x :: y :: ys) ++
            '\n' :: (indentChars ind ++ ']' :: rest))) =
          '\n' :: (indentChars (ind + 2) ++ (prettyChars (ind + 2) x ++
            (',' :: '\n' :: (prettyElems ind (y :: ys) ++
              '\n' :: (indentChars ind ++ ']' :: rest))))) from by simp [prettyElems]]
        rw [parseVal_nl_indent]
        rw [ihP x (ind + 2) (',' :: '\n' :: (prettyElems ind (y :: ys) ++
            '\n' :: (indentChars ind ++ ']' :: rest))) (by
            have h1 := weightList_pos (y :: ys)
            simp only [weightList] at hw
            omega) (by simp +decide [noDigitStart])]
        have hq := ihQ y ys ind rest (by
          simp only [weightList] at hw ⊢
          omega)
        have hsw2 : skipWs (',' :: '\n' :: (prettyElems ind (y :: ys) ++
            '\n' :: (indentChars ind ++ ']' :: rest))) =
          ',' :: '\n' :: (prettyElems ind (y :: ys) ++
            '\n' :: (indentChars ind ++ ']' :: rest)) := skipWs_cons_of_not (by decide) _
        simp +decide [hsw2, hq]
    · -- member lists
      intro k v ms ind rest hw
      rw [parseMembers]
      cases ms with
      | nil =>
        rw [show ('\n' :: (prettyMembers ind [(k, v)] ++
            '\n' :: (indentChars ind ++ '}' :: rest))) =
          '\n' :: (indentChars (ind + 2) ++ (keyChars k ++ (prettyChars (ind + 2) v ++
            ('\n' :: (indentChars ind ++ '}' :: rest))))) from by simp [prettyMembers]]
        rw [skipWs_cons_ws (by decide), skipWs_indent, keyChars]
        rw [show ('"' :: (escapeStr k.data ++ ['"', ':', ' '])) ++ (prettyChars (ind + 2) v ++
            ('\n' :: (indentChars ind ++ '}' :: rest))) =
          '"' :: (escapeStr k.data ++ '"' :: (':' :: ' ' :: (prettyChars (ind + 2) v ++
            ('\n' :: (indentChars ind ++ '}' :: rest))))) from by simp]
        rw [skipWs_cons_of_not (by decide)]
        have hsb := parseStringBody_escapeStr k.data
          (':' :: ' ' :: (prettyChars (ind + 2) v ++ ('\n' :: (indentChars ind ++ '}' :: rest))))
        have hp := ihP v (ind + 2) ('\n' :: (indentChars ind ++ '}' :: rest)) (by
            have h1 := weightMembers_pos ([] : List (String × JsonVal))
            simp only [weightMembers] at hw
            omega) (by simp +decide [noDigitStart])
        have hsw : skipWs ('\n' :: (indentChars ind ++ '}' :: rest)) = '}' :: rest := by
          rw [skipWs_cons_ws (by decide), skipWs_indent, skipWs_cons_of_not (by decide)]
        simp +decide only [hsb]
        rw [skipWs_cons_of_not (by decide)]
        simp +decide only [List.head?_cons, List.tail_cons]
        rw [parseVal_space, hp]
        simp +decide [hsw]
      | cons m2 ms2 =>
        rcases m2 with ⟨k2, v2⟩
        rw [show ('\n' :: (prettyMembers ind ((k, v) :: (k2, v2) :: ms2) ++
            '\n' :: (indentChars ind ++ '}' :: rest))) =
          '\n' :: (indentChars (ind + 2) ++ (keyChars k ++ (prettyChars (ind + 2) v ++
            (',' :: '\n' :: (prettyMembers ind ((k2, v2) :: ms2) ++
              '\n' :: (indentChars ind ++ '}' :: rest)))))) from by simp [prettyMembers]]
        rw [skipWs_cons_ws (by decide), skipWs_indent, keyChars]
        rw [show ('"' :: (escapeStr k.data ++ ['"', ':', ' '])) ++ (prettyChars (ind + 2) v ++
            (',' :: '\n' :: (prettyMembers ind ((k2, v2) :: ms2) ++
              '\n' :: (indentChars ind ++ '}' :: rest)))) =
          '"' :: (escapeStr k.data ++ '"' :: (':' :: ' ' :: (prettyChars (ind + 2) v ++
            (',' :: '\n' :: (prettyMembers ind ((k2, v2) :: ms2) ++
              '\n' :: (indentChars ind ++ '}' :: rest)))))) from by simp]
        rw [skipWs_cons_of_not (by decide)]
        have hsb := parseStringBody_escapeStr k.data
          (':' :: ' ' :: (prettyChars (ind + 2) v ++
            (',' :: '\n' :: (prettyMembers ind ((k2, v2) :: ms2) ++
              '\n' :: (indentChars ind ++ '}' :: rest)))))
        have hp := ihP v (ind + 2) (',' :: '\n' :: (prettyMembers ind ((k2, v2) :: ms2) ++
            '\n' :: (indentChars ind ++ '}' :: rest))) (by
            have h1 := weightMembers_pos ((k2, v2) :: ms2)
            simp only [weightMembers] at hw
            omega) (by simp +decide [noDigitStart])
        have hr := ihR k2 v2 ms2 ind rest (by
          simp only [weightMembers] at hw ⊢
          omega)
        simp +decide only [hsb]
        rw [skipWs_cons_of_not (by decide)]
        simp +decide only [List.head?_cons, List.tail_cons]
        rw [parseVal_space, hp]
        have hsw2 : skipWs (',' :: '\n' :: (prettyMembers ind ((k2, v2) :: ms2) ++
            '\n' :: (indentChars ind ++ '}' :: rest))) =
          ',' :: '\n' :: (prettyMembers ind ((k2, v2) :: ms2) ++
            '\n' :: (indentChars ind ++ '}' :: rest)) := skipWs_cons_of_not (by decide) _
        simp +decide [hsw2, hr]

/-- The fuel chosen by `parseJson` (input length plus one) is at least the
weight of the printed value. -/
theorem weight_le_pretty : ∀ n : Nat,
    (∀ (v : JsonVal) (ind : Nat), weight v ≤ n →
      weight v ≤ (prettyChars ind v).length + 1) ∧
    (∀ (x : JsonVal) (xs : List JsonVal) (ind : Nat), weightList (x :: xs) ≤ n →
      weightList (x :: xs) ≤ (prettyElems ind (x :: xs)).length + 2) ∧
    (∀ (k : String) (v : JsonVal) (ms : List (String × JsonVal)) (ind : Nat),
      weightMembers ((k, v) :: ms) ≤ n →
      weightMembers ((k, v) :: ms) ≤ (prettyMembers ind ((k, v) :: ms)).length + 2) := by
  intro n
  induction n with
  | zero =>
    refine ⟨fun v ind hw => ?_, fun x xs ind hw => ?_, fun k v ms ind hw => ?_⟩
    · exact absurd hw (by have := weight_pos v; omega)
    · exact absurd hw (by have := weightList_pos (x :: xs); omega)
    · exact absurd hw (by have := weightMembers_pos ((k, v) :: ms); omega)
  | succ m ih =>
    obtain ⟨ih1, ih2, ih3⟩ := ih
    refine ⟨?_, ?_, ?_⟩
    · intro v ind hw
      cases v with
      | jnull => simp [weight, prettyChars]
      | jbool b => cases b <;> simp [weight, prettyChars]
      | jnum k => simp [weight, prettyChars]
      | jstr s => simp [weight, prettyChars]
      | jarr xs =>
        cases xs with
        | nil => simp [weight, weightList, prettyChars]
        | cons x xs =>
          have hx := ih2 x xs ind (by simp only [weight] at hw; omega)
          simp only [weight] at hw ⊢
          simp only [prettyChars, List.length_cons, List.length_append, indentChars,
            List.length_replicate]
          omega
      | jobj fs =>
        cases fs with
        | nil => simp [weight, weightMembers, prettyChars]
        | cons m2 ms =>
          rcases m2 with ⟨k, v⟩
          have hx := ih3 k v ms ind (by simp only [weight] at hw; omega)
          simp only [weight] at hw ⊢
          simp only [prettyChars, List.length_cons, List.length_append, indentChars,
            List.length_replicate]
          omega
    · intro x xs ind hw
      cases xs with
      | nil =>
        have hx := ih1 x (ind + 2) (by
          simp only [weightList] at hw
          omega)
        simp only [weightList] at hw ⊢
        simp only [prettyElems, List.length_append, indentChars, List.length_replicate]
        omega
      | cons y ys =>
        have hx := ih1 x (ind + 2) (by simp only [weightList] at hw; omega)
        have hy := ih2 y ys ind (by simp only [weightList] at hw ⊢; omega)
        simp only [weightList] at hw hy ⊢
        simp only [prettyElems, List.length_append, List.length_cons, indentChars,
          List.length_replicate]
        omega
    · intro k v ms ind hw
      cases ms with
      | nil =>
        have hx := ih1 v (ind + 2) (by
          simp only [weightMembers] at hw
          omega)
        simp only [weightMembers] at hw ⊢
        simp only [prettyMembers, List.length_append, indentChars, List.length_replicate]
        omega
      | cons m2 ms2 =>
        rcases m2 with ⟨k2, v2⟩
        have hx := ih1 v (ind + 2) (by simp only [weightMembers] at hw; omega)
        have hy := ih3 k2 v2 ms2 ind (by simp only [weightMembers] at hw ⊢; omega)
        simp only [weightMembers] at hw hy ⊢
        simp only [prettyMembers, List.length_append, List.length_cons, indentChars,
          List.length_replicate]
        omega

/-- Round trip of the modelled platform JSON: reading back the 2-space
pretty-printed form of any value yields the value. -/
theorem parseJson_prettyJson (v : JsonVal) : parseJson (prettyJson v) = some v := by
  have hb := (weight_le_pretty (weight v)).1 v 0 le_rfl
  have hmain := (parse_pretty_main ((prettyChars 0 v).length + 1)).1 v 0 [] hb (by decide)
  rw [List.append_nil] at hmain
  unfold parseJson
  have hd : (prettyJson v).data = prettyChars 0 v := rfl
  rw [hd, hmain]
  simp [skipWs]

/-! Supporting lemmas: the walk of the Path Extractor. -/

/-- Full characterization of the loop over any value domain: success is
exactly resolution of every segment (truthiness, membership and read all
succeeding); a thrown error is exactly a resolving prefix meeting a truthy
value whose membership test or read throws; the `undefined` return is
everything else. -/
theorem walkPathD_characterization (D : JsDomain V) : ∀ (ps : List String) (v : V),
    (∀ w, walkPathD D ps v = .ok (some w) ↔ ResolvesD D ps v w) ∧
    ((∃ e, walkPathD D ps v = .error e) ↔ ThrowsD D ps v) ∧
    (walkPathD D ps v = .ok none ↔ (¬ ThrowsD D ps v ∧ ∀ w, ¬ ResolvesD D ps v w)) := by
  intro ps
  induction ps with
  | nil =>
    intro v
    refine ⟨fun w => ?_, ?_, ?_⟩
    · simp [walkPathD, ResolvesD, eq_comm]
    · simp [walkPathD, ThrowsD]
    · simp [walkPathD, ThrowsD, ResolvesD]
  | cons p ps ih =>
    intro v
    by_cases htr : D.truthyV v = true
    · cases hm : D.memV v p with
      | error e =>
        have hstep : walkPathD D (p :: ps) v = .error e := by
          simp [walkPathD, htr, hm]
        refine ⟨fun w => ?_, ?_, ?_⟩
        · simp [hstep, ResolvesD, hm]
        · simp [hstep, ThrowsD, htr, hm]
        · simp [hstep, ThrowsD, htr, hm]
      | ok b =>
        cases b with
        | false =>
          have hstep : walkPathD D (p :: ps) v = .ok none := by
            simp [walkPathD, htr, hm]
          refine ⟨fun w => ?_, ?_, ?_⟩
          · simp [hstep, ResolvesD, hm]
          · simp [hstep, ThrowsD, htr, hm]
          · simp [hstep, ThrowsD, ResolvesD, htr, hm]
        | true =>
          cases hg : D.getV v p with
          | error e =>
            have hstep : walkPathD D (p :: ps) v = .error e := by
              simp [walkPathD, htr, hm, hg]
            refine ⟨fun w => ?_, ?_, ?_⟩
            · simp [hstep, ResolvesD, hm, hg]
            · simp [hstep, ThrowsD, htr, hm, hg]
            · simp [hstep, ThrowsD, htr, hm, hg]
          | ok v2 =>
            have hstep : walkPathD D (p :: ps) v = walkPathD D ps v2 := by
              simp [walkPathD, htr, hm, hg]
            obtain ⟨iha, ihb, ihc⟩ := ih v2
            refine ⟨fun w => ?_, ?_, ?_⟩
            · rw [hstep, iha]
              simp [ResolvesD, htr, hm, hg]
            · rw [hstep]
              rw [ihb]
              simp [ThrowsD, htr, hm, hg]
            · rw [hstep, ihc]
              simp [ThrowsD, ResolvesD, htr, hm, hg]
    · have hntr : D.truthyV v = false := by simpa using htr
      have hstep : walkPathD D (p :: ps) v = .ok none := by
        simp [walkPathD, hntr]
      refine ⟨fun w => ?_, ?_, ?_⟩
      · simp [hstep, ResolvesD, hntr]
      · simp [hstep, ThrowsD, hntr]
      · simp [hstep, ThrowsD, ResolvesD, hntr]

/-! Supporting lemmas: the collection loop. -/

/-- Closed form of the collection loop from index `i`: the trace is the
per-page pattern in index order and the results are the defined extracted
values in index order. -/
theorem collectPages_spec (H : HostSpec) (env : Nat → Except JsError JsonVal)
    (jsonPath : String) (startValue pageSize : Int) : ∀ (rem i : Nat),
    collectPages H env jsonPath startValue pageSize i rem =
      ((List.range' i rem).flatMap (fun j =>
          (if 0 < j then [Event.sleep 1000] else []) ++
            [Event.request (startValue + (j : Int) * pageSize)]),
       (List.range' i rem).filterMap (pageOutcome H env jsonPath)) := by
  intro rem
  induction rem with
  | zero => intro i; simp [collectPages]
  | succ r ihr =>
    intro i
    rw [collectPages, ihr (i + 1), List.range'_succ]
    simp only [List.flatMap_cons, List.filterMap_cons]
    cases h : pageOutcome H env jsonPath i <;> simp [h, List.append_assoc]

/-! Concrete sample objects used by the claim witnesses and
counterexamples. -/

/-- Request values of the standard per-page trace pattern. -/
theorem requestValues_pattern (f : Nat → Int) : ∀ l : List Nat,
    requestValues (l.flatMap (fun i =>
      (if 0 < i then [Event.sleep 1000] else []) ++ [Event.request (f i)])) = l.map f := by
  intro l
  induction l with
  | nil => rfl
  | cons i is ih =>
    by_cases hi : 0 < i <;> simp [requestValues, hi, List.filterMap_append] at ih ⊢ <;>
      simpa [requestValues] using ih

/-! Claim theorems. -/

/-- Claim C1, counterexample.  The claim states that interception-layer
errors are always caught locally so the real network call always proceeds,
on both the fetch-style and the XHR-style paths.  On the XHR path the
filter test `this._xhrUrl.includes(filter)` sits outside any try/catch: a
truthy non-string `_xhrUrl` (as stored by `xhr.open("GET", 5)`) makes it
throw a TypeError, so `originalXHRSend` is never invoked and the real send
is blocked. -/
theorem c1_counterexample :
    xhrSend none true "api" (some (.jnum 5)) (some "GET") (some []) none =
      .error .typeError := rfl

/-- Claim C1, amended.  Fetch path: the proxy always performs the real call
with the original arguments, for every input, including the ones on which
the capture step throws (one such throwing input is exhibited).  XHR path:
the real send with the original body is performed whenever the stored URL
is absent or a string; only a truthy non-string URL can block it. -/
theorem c1_interception_isolation :
    (∀ (filter : String) (prev : Option Template) (resource : Option JsonVal)
      (init : Option InitRec),
      (fetchProxy filter prev resource init).2 = ⟨resource, init⟩) ∧
    tryCaptureFetch "api" none none = .error .typeError ∧
    (∀ (prev : Option Template) (hb : Bool) (filter : String) (xmethod : Option String)
      (xheaders : Option (List (String × String))) (body : Option String),
      ∃ cap, xhrSend prev hb filter none xmethod xheaders body = .ok (cap, ⟨body⟩)) ∧
    (∀ (prev : Option Template) (hb : Bool) (filter : String) (s : String)
      (xmethod : Option String) (xheaders : Option (List (String × String)))
      (body : Option String),
      ∃ cap, xhrSend prev hb filter (some (.jstr s)) xmethod xheaders body =
        .ok (cap, ⟨body⟩)) := by
  refine ⟨fun _ _ _ _ => rfl, rfl, fun prev hb filter xm xh b => ⟨prev, rfl⟩, ?_⟩
  intro prev hb filter s xm xh b
  by_cases h1 : truthy (.jstr s) = true
  · by_cases h2 : (if hb then filter else "") = ""
    · exact ⟨prev, by simp [xhrSend, h1, h2]⟩
    · by_cases h3 : jsIncludes s (if hb then filter else "") = true
      · exact ⟨some ⟨s, xhrClean xm xh b⟩, by simp [xhrSend, h1, h2, h3]⟩
      · exact ⟨prev, by simp [xhrSend, h1, h2, h3]⟩
  · exact ⟨prev, by simp [xhrSend, h1]⟩

/-- Claim C2, counterexample.  The claim states `extract` returns the
nested value exactly when every segment is a key of its parent container,
`undefined` otherwise, and never throws.  Both failure modes are shown at
the sample host (the walks below never consult the engine-dependent part of
the tables beyond the inherited names every engine has): the walk reaching
a truthy primitive with a segment left throws a TypeError, because the `in`
operator throws on primitives (`getValueByPath({a: 1}, "a.b")`); and a
segment that is no key of the object still resolves when the prototype
chain has it, yielding an inherited host value instead of `undefined`
(`getValueByPath({}, "toString")`). -/
theorem c2_counterexample :
    getValueByPath sampleHost (.jobj [("a", .jnum 1)]) "a.b" = .error .typeError ∧
    getValueByPath sampleHost (.jobj []) "toString" = .ok (some (Sum.inr "toString")) :=
  ⟨rfl, rfl⟩

/-- Claim C2, amended.  For every host (every choice of the inherited
property tables and host values, in particular the ones of the engine
running the source), `extract(o, p)` returns a defined value exactly when
every segment resolves: the current value is truthy, the segment is an own
key or an inherited prototype property (the `in` test), and the read
succeeds — an own key reading the data value, an inherited name reading
from the prototype chain; it throws exactly when a resolving prefix meets a
truthy value whose `in` test or read throws — on JSON data the `in` test
throws precisely on non-containers, and since the walk applies it only to
truthy values, a data-side throw is exactly a truthy primitive met
mid-path; and it returns `undefined` exactly otherwise.  On a container an
own key always passes the `in` test and reads to its own data value. -/
theorem c2_extract_characterization (H : HostSpec) (obj : JsonVal) (path : String) :
    (∀ w, getValueByPath H obj path = .ok (some w) ↔
      ResolvesD (jsDomain H) (splitDot path) (Sum.inl obj) w) ∧
    ((∃ e, getValueByPath H obj path = .error e) ↔
      ThrowsD (jsDomain H) (splitDot path) (Sum.inl obj)) ∧
    (getValueByPath H obj path = .ok none ↔
      (¬ ThrowsD (jsDomain H) (splitDot path) (Sum.inl obj) ∧
        ∀ w, ¬ ResolvesD (jsDomain H) (splitDot path) (Sum.inl obj) w)) ∧
    (∀ (j : JsonVal) (p : String),
      (jsDomain H).memV (Sum.inl j) p = .error .typeError ↔ isContainer j = false) ∧
    (∀ (j : JsonVal) (p : String), hasOwnKey j p = true →
      (jsDomain H).memV (Sum.inl j) p = .ok true ∧
        (jsDomain H).getV (Sum.inl j) p = .ok (Sum.inl (jsGetProp j p))) := by
  obtain ⟨ha, hb, hc⟩ := walkPathD_characterization (jsDomain H) (splitDot path) (Sum.inl obj)
  refine ⟨ha, hb, hc, ?_, ?_⟩
  · intro j p
    cases j <;> simp [jsDomain, dataMem, isContainer]
  · intro j p hk
    have hco : isContainer j = true := by
      cases j <;> simp_all [hasOwnKey, isContainer]
    exact ⟨by simp [jsDomain, dataMem, hco, hk], by simp [jsDomain, dataGet, hk]⟩

/-- Claim C2, witness: at the sample host, an own-key path resolves to the
nested data value, an inherited name resolves on the empty object to a host
value, a path into a primitive throws, and a missing head key returns
`undefined`, all read off the characterization. -/
theorem c2_witness :
    getValueByPath sampleHost (.jobj [("a", .jobj [("b", .jnum 7)])]) "a.b" =
      .ok (some (Sum.inl (.jnum 7))) ∧
    getValueByPath sampleHost (.jobj []) "toString" = .ok (some (Sum.inr "toString")) ∧
    (∃ e, getValueByPath sampleHost (.jobj [("a", .jnum 1)]) "a.b" = .error e) ∧
    getValueByPath sampleHost (.jobj [("a", .jnum 1)]) "c" = .ok none := by
  refine ⟨?_, ?_, ?_, rfl⟩
  · exact ((c2_extract_characterization sampleHost
        (.jobj [("a", .jobj [("b", .jnum 7)])]) "a.b").1 _).mpr
      ⟨rfl, rfl, Sum.inl (.jobj [("b", .jnum 7)]), rfl, rfl, rfl,
        Sum.inl (.jnum 7), rfl, rfl⟩
  · exact ((c2_extract_characterization sampleHost (.jobj []) "toString").1 _).mpr
      ⟨rfl, rfl, Sum.inr "toString", rfl, rfl⟩
  · exact (c2_extract_characterization sampleHost
        (.jobj [("a", .jnum 1)]) "a.b").2.1.mpr
      ⟨rfl, Or.inr ⟨rfl, Or.inr ⟨Sum.inl (.jnum 1), rfl,
        rfl, Or.inl ⟨.typeError, rfl⟩⟩⟩⟩

/-- Claim C3, counterexample.  The claim states the empty filter matches
every URL (vacuous substring containment).  Substring containment of the
empty string does hold for every URL, but both capture sites first test the
truthiness of the filter (`config.filter && ...`), so with the empty filter
neither path captures anything. -/
theorem c3_counterexample :
    jsIncludes "https://x/a" "" = true ∧
    (fetchProxy "" none (some (.jstr "https://x/a")) none).1 = none ∧
    xhrSend none true "" (some (.jstr "https://x/a")) none none none =
      .ok (none, ⟨none⟩) :=
  ⟨rfl, rfl, rfl⟩

/-- Claim C3, amended.  The empty filter matches no URL on either path (the
capture state is always left unchanged); for a nonempty filter the fetch
path captures exactly when the URL contains the filter as a substring,
case-sensitively. -/
theorem c3_empty_filter_matches_nothing (url : String) (prev : Option Template)
    (init : Option InitRec) (hb : Bool) (xm : Option String)
    (xh : Option (List (String × String))) (b : Option String) :
    (fetchProxy "" prev (some (.jstr url)) init).1 = prev ∧
    xhrSend prev hb "" (some (.jstr url)) xm xh b = .ok (prev, ⟨b⟩) ∧
    (∀ f : String, f ≠ "" →
      (fetchProxy f prev (some (.jstr url)) init).1 =
        (if jsIncludes url f then some (fetchTemplate url init) else prev)) := by
  refine ⟨rfl, ?_, ?_⟩
  · by_cases h1 : truthy (.jstr url) = true
    · simp [xhrSend, h1]
    · simp [xhrSend, h1]
  · intro f hf
    by_cases hinc : jsIncludes url f = true
    · simp [fetchProxy, tryCaptureFetch, resourceUrl, urlIncludes, hf, hinc]
    · simp [fetchProxy, tryCaptureFetch, resourceUrl, urlIncludes, hf, hinc]

/-- Claim C3, witness for the amended theorem at a concrete URL and
filter. -/
theorem c3_witness :
    ("x" : String) ≠ "" ∧
    (fetchProxy "x" none (some (.jstr "https://x/a")) none).1 =
      (if jsIncludes "https://x/a" "x" then some (fetchTemplate "https://x/a" none)
       else none) :=
  ⟨by decide,
   (c3_empty_filter_matches_nothing "https://x/a" none none true none none none).2.2 "x"
     (by decide)⟩

/-- Claim C4, counterexample.  The claim states the XHR path stores the
same canonical shape `{headers, method, mode, credentials, body?}` as the
fetch path (mode defaulting to cors, credentials to same-origin).  The XHR
capture site builds `{headers, method, body?}` only: on a concrete matching
send the stored config has no `mode` and no `credentials` field, while the
fetch normalizer on the same data fills both defaults in. -/
theorem c4_counterexample :
    xhrSend none true "api" (some (.jstr "http://x/api")) (some "POST")
        (some [("Content-Type", "application/json")]) none =
      .ok (some ⟨"http://x/api",
        ⟨[("Content-Type", "application/json")], "POST", none, none, none⟩⟩, ⟨none⟩) ∧
    (fetchClean ⟨some [("Content-Type", "application/json")], some "POST",
      none, none, none⟩).mode = some "cors" ∧
    (fetchClean ⟨some [("Content-Type", "application/json")], some "POST",
      none, none, none⟩).credentials = some "same-origin" :=
  ⟨rfl, rfl, rfl⟩

/-- Claim C4, amended.  A matching XHR send stores a template whose config
has the headers, the method defaulted to GET, and the body normalized
exactly as the fetch path normalizes it, but with no `mode` and no
`credentials` field; it agrees with the fetch-path normalizer on the same
data except for those two missing fields. -/
theorem c4_xhr_template_shape (prev : Option Template) (filter s : String)
    (xm : Option String) (xh : Option (List (String × String))) (b : Option String)
    (hf : filter ≠ "") (hs : s ≠ "") (hinc : jsIncludes s filter = true) :
    xhrSend prev true filter (some (.jstr s)) xm xh b =
      .ok (some ⟨s, xhrClean xm xh b⟩, ⟨b⟩) ∧
    xhrClean xm xh b =
      { fetchClean ⟨xh, xm, none, none, b⟩ with mode := none, credentials := none } := by
  constructor
  · have h1 : truthy (.jstr s) = true := by simp [truthy, hs]
    simp [xhrSend, h1, hf, hinc]
  · rfl

/-- Claim C4, witness for the amended theorem at a concrete matching
send. -/
theorem c4_witness :
    ("api" : String) ≠ "" ∧ ("http://x/api" : String) ≠ "" ∧
    jsIncludes "http://x/api" "api" = true ∧
    xhrSend none true "api" (some (.jstr "http://x/api")) (some "POST") (some []) none =
      .ok (some ⟨"http://x/api", xhrClean (some "POST") (some []) none⟩, ⟨none⟩) :=
  ⟨by decide, by decide, by decide,
   (c4_xhr_template_shape none "api" "http://x/api" (some "POST") (some []) none
     (by decide) (by decide) (by decide)).1⟩

/-- Claim C5, counterexample.  The claim states the stored pageSize is
always a positive integer after an update.  The source takes
`parseInt(value, 10) || 20`, and a negative parse such as `"-5"` is truthy,
so the stored pageSize is the negative number -5. -/
theorem c5_counterexample :
    updatePageSize "-5" = -5 ∧ ¬ (0 < updatePageSize "-5") :=
  ⟨rfl, by decide⟩

/-- Claim C5, amended.  After an update the stored pageSize is a nonzero
integer: an input parsing to NaN or to zero falls back to the default 20,
and any other parse (negative values included) is stored as is. -/
theorem c5_pagesize_fallback (s : String) :
    updatePageSize s ≠ 0 ∧
    (jsParseInt s = none → updatePageSize s = 20) ∧
    (jsParseInt s = some 0 → updatePageSize s = 20) ∧
    (∀ n : Int, n ≠ 0 → jsParseInt s = some n → updatePageSize s = n) := by
  refine ⟨?_, ?_, ?_, ?_⟩
  · cases h : jsParseInt s with
    | none => simp [updatePageSize, h]
    | some n =>
      by_cases hn : n = 0
      · simp [updatePageSize, h, hn]
      · simp [updatePageSize, h, hn]
  · intro h; simp [updatePageSize, h]
  · intro h; simp [updatePageSize, h]
  · intro n hn h; simp [updatePageSize, h, hn]

/-- Claim C5, witness for the amended theorem: a NaN parse falls back to
20, and a valid parse is stored. -/
theorem c5_witness :
    jsParseInt "abc" = none ∧ updatePageSize "abc" = 20 ∧
    jsParseInt "50" = some 50 ∧ updatePageSize "50" = 50 :=
  ⟨by decide, (c5_pagesize_fallback "abc").2.1 (by decide), by decide,
   (c5_pagesize_fallback "50").2.2.2 50 (by decide) (by decide)⟩

/-- Claim C6, confirmed.  With a stored Template, every per-page failure
(replay error, extractor throw, or undefined extracted value) is caught and
only skips that page: all pages still issue their replay, the final
aggregate is exactly the defined extracted values in original page order
with failed pages absent (not null-padded), and the download is performed
exactly when the aggregate is nonempty, with precisely that aggregate. -/
theorem c6_per_page_failure_isolation (H : HostSpec) (env : Nat → Except JsError JsonVal)
    (jsonPath : String) (t : Template) (startValue pageSize : Int) (totalPages : Nat) :
    (collectAndDownload H env jsonPath (some t) startValue pageSize totalPages).2.1 =
      (List.range totalPages).filterMap (pageOutcome H env jsonPath) ∧
    requestValues (collectAndDownload H env jsonPath (some t) startValue pageSize totalPages).1 =
      (List.range totalPages).map (fun i : Nat => startValue + (i : Int) * pageSize) ∧
    ((List.range totalPages).filterMap (pageOutcome H env jsonPath) = [] →
      (collectAndDownload H env jsonPath (some t) startValue pageSize totalPages).2.2 = none) ∧
    ((List.range totalPages).filterMap (pageOutcome H env jsonPath) ≠ [] →
      (collectAndDownload H env jsonPath (some t) startValue pageSize totalPages).2.2 =
        some ("data.json", (List.range totalPages).filterMap (pageOutcome H env jsonPath))) := by
  have hs := collectPages_spec H env jsonPath startValue pageSize totalPages 0
  rw [← List.range_eq_range'] at hs
  have hcd : collectAndDownload H env jsonPath (some t) startValue pageSize totalPages =
      ((List.range totalPages).flatMap (fun i =>
          (if 0 < i then [Event.sleep 1000] else []) ++
            [Event.request (startValue + (i : Int) * pageSize)]),
       (List.range totalPages).filterMap (pageOutcome H env jsonPath),
       if ((List.range totalPages).filterMap (pageOutcome H env jsonPath)).isEmpty then none
       else some ("data.json", (List.range totalPages).filterMap (pageOutcome H env jsonPath))) := by
    simp only [collectAndDownload, hs]
  refine ⟨by rw [hcd], by rw [hcd]; exact requestValues_pattern _ _, ?_, ?_⟩
  · intro h
    rw [hcd]
    simp [h]
  · intro h
    rw [hcd]
    simp [h]

/-- Claim C6, witness: with the environment where page 1 of 3 fails, pages
0 and 2 still appear in order, page 1 is absent, and the download carries
exactly that aggregate. -/
theorem c6_witness :
    (collectAndDownload sampleHost sampleEnv "0" (some sampleTemplate) 0 20 3).2.1 =
      [Sum.inl (.jnum 0), Sum.inl (.jnum 2)] ∧
    (collectAndDownload sampleHost sampleEnv "0" (some sampleTemplate) 0 20 3).2.2 =
      some ("data.json", [Sum.inl (.jnum 0), Sum.inl (.jnum 2)]) := by
  have h := c6_per_page_failure_isolation sampleHost sampleEnv "0" sampleTemplate 0 20 3
  have hfm : (List.range 3).filterMap (pageOutcome sampleHost sampleEnv "0") =
      [Sum.inl (JsonVal.jnum 0), Sum.inl (JsonVal.jnum 2)] := rfl
  refine ⟨?_, ?_⟩
  · rw [h.1, hfm]
  · rw [h.2.2.2 (by rw [hfm]; simp), hfm]

/-- Claim C7, counterexample.  The claim states that every body that is not
valid JSON is stored verbatim as text.  The empty string is not valid JSON,
yet both capture sites guard with `if (config.body)`, and the empty string
is falsy: an empty raw body is dropped entirely instead of being stored
verbatim. -/
theorem c7_counterexample :
    parseJson "" = none ∧ normBody (some "") = none :=
  ⟨rfl, rfl⟩

/-- Claim C7, amended.  For every raw body that is syntactically valid
JSON, normalization stores its canonical 2-space-indented form, which
parses back to exactly the structure of the original body; every nonempty
body that is not valid JSON is stored verbatim, the parse error never
propagating (normalization is total); the empty body alone is dropped. -/
theorem c7_body_normalization :
    (∀ (raw : String) (j : JsonVal), parseJson raw = some j →
      normBody (some raw) = some (prettyJson j) ∧ parseJson (prettyJson j) = some j) ∧
    (∀ raw : String, parseJson raw = none → raw ≠ "" → normBody (some raw) = some raw) := by
  constructor
  · intro raw j h
    have hne : raw ≠ "" := by
      intro he
      rw [he, show parseJson "" = none from rfl] at h
      exact Option.noConfusion h
    exact ⟨by simp [normBody, hne, h], parseJson_prettyJson j⟩
  · intro raw h hne
    simp [normBody, hne, h]

/-- Claim C7, witness: a concrete valid JSON body round-trips through the
canonical form, and a concrete non-JSON body is stored verbatim. -/
theorem c7_witness :
    parseJson "[1, 2]" = some (.jarr [.jnum 1, .jnum 2]) ∧
    normBody (some "[1, 2]") = some (prettyJson (.jarr [.jnum 1, .jnum 2])) ∧
    parseJson (prettyJson (.jarr [.jnum 1, .jnum 2])) = some (.jarr [.jnum 1, .jnum 2]) ∧
    parseJson "hello" = none ∧ normBody (some "hello") = some "hello" :=
  ⟨rfl,
   (c7_body_normalization.1 "[1, 2]" (.jarr [.jnum 1, .jnum 2]) rfl).1,
   (c7_body_normalization.1 "[1, 2]" (.jarr [.jnum 1, .jnum 2]) rfl).2,
   rfl,
   c7_body_normalization.2 "hello" rfl (by decide)⟩

/-- Claim C8, confirmed.  A second matching capture replaces the stored
Template entirely: on both paths the state after a matching request equals
a template computed from that request alone, independently of whatever was
stored before (the results for two arbitrary prior states coincide). -/
theorem c8_capture_overwrites (prev1 prev2 : Option Template) (filter url : String)
    (init : Option InitRec) (xm : Option String) (xh : Option (List (String × String)))
    (b : Option String) (hf : filter ≠ "") (hinc : jsIncludes url filter = true) :
    (fetchProxy filter prev1 (some (.jstr url)) init).1 = some (fetchTemplate url init) ∧
    (fetchProxy filter prev1 (some (.jstr url)) init).1 =
      (fetchProxy filter prev2 (some (.jstr url)) init).1 ∧
    (url ≠ "" →
      xhrSend prev1 true filter (some (.jstr url)) xm xh b =
        .ok (some ⟨url, xhrClean xm xh b⟩, ⟨b⟩) ∧
      xhrSend prev1 true filter (some (.jstr url)) xm xh b =
        xhrSend prev2 true filter (some (.jstr url)) xm xh b) := by
  have hfetch : ∀ prev : Option Template,
      (fetchProxy filter prev (some (.jstr url)) init).1 = some (fetchTemplate url init) := by
    intro prev
    simp [fetchProxy, tryCaptureFetch, resourceUrl, urlIncludes, hf, hinc]
  refine ⟨hfetch prev1, by rw [hfetch prev1, hfetch prev2], ?_⟩
  intro hurl
  have h1 : truthy (.jstr url) = true := by simp [truthy, hurl]
  have hxhr : ∀ prev : Option Template,
      xhrSend prev true filter (some (.jstr url)) xm xh b =
        .ok (some ⟨url, xhrClean xm xh b⟩, ⟨b⟩) := by
    intro prev
    simp [xhrSend, h1, hf, hinc]
  exact ⟨hxhr prev1, by rw [hxhr prev1, hxhr prev2]⟩

/-- Claim C8, witness: at a concrete matching request the stored Template
after the capture is the same whether the previous state was empty or held
another template. -/
theorem c8_witness :
    ("api" : String) ≠ "" ∧ jsIncludes "http://x/api" "api" = true ∧
    (fetchProxy "api" (some sampleTemplate) (some (.jstr "http://x/api")) none).1 =
      some (fetchTemplate "http://x/api" none) ∧
    (fetchProxy "api" (some sampleTemplate) (some (.jstr "http://x/api")) none).1 =
      (fetchProxy "api" none (some (.jstr "http://x/api")) none).1 :=
  ⟨by decide, by decide,
   (c8_capture_overwrites (some sampleTemplate) none "api" "http://x/api" none none none
     none (by decide) (by decide)).1,
   (c8_capture_overwrites (some sampleTemplate) none "api" "http://x/api" none none none
     none (by decide) (by decide)).2.1⟩

/-- Claim C9, confirmed.  With a stored Template, the collection trace is
exactly, in order of increasing page index: the replay with page value
`startValue + i * pageSize` for each `i`, preceded for every `i > 0` by the
fixed 1000 ms sleep; in particular the issued page values are
`startValue, startValue + pageSize, ...` in that order. -/
theorem c9_replay_order_and_delays (H : HostSpec) (env : Nat → Except JsError JsonVal)
    (jsonPath : String) (t : Template) (startValue pageSize : Int) (totalPages : Nat) :
    (collectAndDownload H env jsonPath (some t) startValue pageSize totalPages).1 =
      (List.range totalPages).flatMap (fun i =>
        (if 0 < i then [Event.sleep 1000] else []) ++
          [Event.request (startValue + (i : Int) * pageSize)]) ∧
    requestValues (collectAndDownload H env jsonPath (some t) startValue pageSize totalPages).1 =
      (List.range totalPages).map (fun i : Nat => startValue + (i : Int) * pageSize) := by
  have hs := collectPages_spec H env jsonPath startValue pageSize totalPages 0
  rw [← List.range_eq_range'] at hs
  have hcd : (collectAndDownload H env jsonPath (some t) startValue pageSize totalPages).1 =
      (List.range totalPages).flatMap (fun i =>
        (if 0 < i then [Event.sleep 1000] else []) ++
          [Event.request (startValue + (i : Int) * pageSize)]) := by
    simp only [collectAndDownload, hs]
  exact ⟨hcd, by rw [hcd]; exact requestValues_pattern _ _⟩

/-- Claim C9, witness: `collect(0, 3)` with pageSize 20 issues the page
values 0, 20, 40 in that order with a 1000 ms sleep before the second and
third replay. -/
theorem c9_witness :
    (collectAndDownload sampleHost sampleEnv "0" (some sampleTemplate) 0 20 3).1 =
      [Event.request 0, Event.sleep 1000, Event.request 20,
       Event.sleep 1000, Event.request 40] ∧
    requestValues (collectAndDownload sampleHost sampleEnv "0" (some sampleTemplate) 0 20 3).1 =
      [0, 20, 40] := by
  have h := c9_replay_order_and_delays sampleHost sampleEnv "0" sampleTemplate 0 20 3
  exact ⟨by rw [h.1]; rfl, by rw [h.2]; rfl⟩

/-- Claim C10, counterexample.  The claim states that whenever the mutated
replay URL contains the configured filter, the replay is captured and the
stored Template is overwritten with the mutated URL.  With the empty filter
the mutated URL does contain the filter (every string contains the empty
string), yet the replay is issued with the page parameter set to 5 and the
stored Template is left unchanged, because the proxy tests the truthiness
of the filter before the containment. -/
theorem c10_counterexample :
    jsIncludes (mutateUrl "http://x/api/data?page=1" "page" 5) "" = true ∧
    mutateUrl "http://x/api/data?page=1" "page" 5 ≠ "http://x/api/data?page=1" ∧
    replayCalledUrl sampleStateEmptyFilter 5 = some "http://x/api/data?page=5" ∧
    afterReplayCapture sampleStateEmptyFilter 5 = some (some sampleTemplate) :=
  ⟨by decide, by decide, by decide, by decide⟩

/-- Claim C10, amended.  While monitoring is on, a replay goes through the
proxied `window.fetch`; whenever the filter is nonempty and the mutated URL
contains it, the replay is itself captured: the state after the replay
stores the template normalized from the replay request, whose URL is the
mutated URL with the page parameter baked in, and the real call is issued
with that URL and the copied config. -/
theorem c10_replay_recapture (st : EngineState) (t : Template) (v : Int)
    (hmon : st.monitoring = true) (hcap : st.firstCapture = some t)
    (hf : st.filter ≠ "")
    (hinc : jsIncludes (mutateUrl t.url st.paramName v) st.filter = true) :
    executeRequestStep st v = .ok
      ({ st with firstCapture := some (fetchTemplate (mutateUrl t.url st.paramName v)
          (some (initOfClean t.config))) },
       ⟨some (.jstr (mutateUrl t.url st.paramName v)), some (initOfClean t.config)⟩) := by
  simp only [executeRequestStep, hcap, hmon, if_pos]
  simp [fetchProxy, tryCaptureFetch, resourceUrl, urlIncludes, hf, hinc]

/-- Claim C10, witness: with the filter `api/data` and the stored sample
template, the replay with page value 5 issues the mutated URL and the
stored Template afterwards is the renormalized capture of that replay. -/
theorem c10_witness :
    sampleStateMatching.monitoring = true ∧
    sampleStateMatching.firstCapture = some sampleTemplate ∧
    sampleStateMatching.filter ≠ "" ∧
    jsIncludes (mutateUrl sampleTemplate.url sampleStateMatching.paramName 5)
      sampleStateMatching.filter = true ∧
    executeRequestStep sampleStateMatching 5 = .ok
      ({ sampleStateMatching with firstCapture := some (fetchTemplate
          (mutateUrl sampleTemplate.url sampleStateMatching.paramName 5)
          (some (initOfClean sampleTemplate.config))) },
       ⟨some (.jstr (mutateUrl sampleTemplate.url sampleStateMatching.paramName 5)),
        some (initOfClean sampleTemplate.config)⟩) :=
  ⟨rfl, rfl, by decide, by decide,
   c10_replay_recapture sampleStateMatching sampleTemplate 5 rfl rfl (by decide) (by decide)⟩

end ReqCapReplay
